import Mathlib

/-!
Verification of the Sudoku puzzle engine (`js/generator.js`, `js/hints.js`).

The engine works on 9×9 grids of integers where 0 marks an empty cell.  A grid
is modelled as a total function `Nat → Nat → Nat`; the engine only ever reads
and writes cells with both indices below 9, so the behaviour of the model
coincides with the JavaScript source on every well-formed (9×9) grid, which is
the shape all the specification claims quantify over.  In-place mutation in the
source is modelled by explicit state passing: a JavaScript function that
mutates its grid argument becomes a Lean function returning the new grid.
`Math.random()` is modelled by an explicit stream of naturals `σ : Nat → Nat`;
`Math.floor(Math.random() * n)`, an arbitrary value in `[0, n)`, becomes
`σ 0 % n` together with the advanced stream, so quantifying over all streams
covers exactly the code's possible behaviours.

The recursive backtracking functions of the source terminate because every
recursive call fills one of the at most 81 empty cells.  They are defined here
with an explicit fuel parameter, always instantiated with 82; the lemmas
`numZeros_le` and `numZeros_setCell_lt` show fuel 82 can never run out, so the
fuel-exhaustion branches are unreachable and the model agrees with the
unbounded recursion of the source.
-/

/-- Stream of random naturals standing for successive `Math.random()` draws. -/
abbrev RNG := Nat → Nat

/-- The stream after one draw has been consumed. -/
def tailRNG (σ : RNG) : RNG := fun k => σ (k + 1)

/-- `Math.floor(Math.random() * n)`: a value `< n` plus the advanced stream. -/
def randBelow (σ : RNG) (n : Nat) : Nat × RNG := (σ 0 % n, tailRNG σ)

/-- A 9×9 Sudoku grid; cell values 1–9, with 0 for an empty cell.  Only the
cells with both indices `< 9` are ever read or written by the engine. -/
abbrev Grid := Nat → Nat → Nat

/-- `grid[row][col] = v` (JavaScript assignment into the 2-D array). -/
def setCell (g : Grid) (r c v : Nat) : Grid :=
  fun r' c' => if r' = r ∧ c' = c then v else g r' c'

/-- All 81 board positions in row-major order, the order in which every scan
loop (`for row … for col …`) of the source visits them. -/
def allPositions : List (Nat × Nat) :=
  (List.range 9).flatMap fun r => (List.range 9).map fun c => (r, c)

/-- `findEmptyCell(grid)`: first cell in row-major order containing 0. -/
def findEmptyCell (g : Grid) : Option (Nat × Nat) :=
  allPositions.find? fun p => g p.1 p.2 == 0

/-- Number of empty in-range cells; the termination measure of the
backtracking recursion (proof-side only, not part of the source). -/
def numZeros (g : Grid) : Nat :=
  ((Finset.range 9 ×ˢ Finset.range 9).filter fun p => g p.1 p.2 = 0).card

/-- `isValidPlacement(grid, row, col, num)`: `num` occurs nowhere in the row,
the column, or the 3×3 box of `(row, col)`. -/
def isValidPlacement (g : Grid) (row col num : Nat) : Bool :=
  !((List.range 9).any fun c => g row c == num) &&
  !((List.range 9).any fun r => g r col == num) &&
  !((List.range 3).any fun dr =>
      (List.range 3).any fun dc => g (row / 3 * 3 + dr) (col / 3 * 3 + dc) == num)

/-- Common body of `validateRow` / `validateColumn` / `validateSubgrid`: scan
the region's cells keeping a `seen` set, skipping zeros, rejecting values
outside 1–9 and repeated values.  The three JavaScript functions are this very
loop instantiated with the three region shapes. -/
def validateCells (g : Grid) : List (Nat × Nat) → List Nat → Bool
  | [], _ => true
  | p :: rest, seen =>
    let num := g p.1 p.2
    if num == 0 then validateCells g rest seen
    else if num < 1 || num > 9 then false
    else if seen.contains num then false
    else validateCells g rest (num :: seen)

/-- The cells of row `r` in scan order. -/
def rowCells (r : Nat) : List (Nat × Nat) := (List.range 9).map fun c => (r, c)

/-- The cells of column `c` in scan order. -/
def colCells (c : Nat) : List (Nat × Nat) := (List.range 9).map fun r => (r, c)

/-- The cells of the 3×3 box with top-left corner `(br, bc)` in scan order. -/
def boxCells (br bc : Nat) : List (Nat × Nat) :=
  (List.range 3).flatMap fun dr => (List.range 3).map fun dc => (br + dr, bc + dc)

/-- `validateRow(grid, rowIndex)`. -/
def validateRow (g : Grid) (r : Nat) : Bool := validateCells g (rowCells r) []

/-- `validateColumn(grid, colIndex)`. -/
def validateColumn (g : Grid) (c : Nat) : Bool := validateCells g (colCells c) []

/-- `validateSubgrid(grid, boxStartRow, boxStartCol)`. -/
def validateSubgrid (g : Grid) (br bc : Nat) : Bool := validateCells g (boxCells br bc) []

/-- `isValidGrid(grid, requireComplete)`.  The JavaScript shape check
(`grid.length === 9`, each row of length 9) cannot fail in this model, where a
grid is total by construction; the remaining checks are translated one to
one. -/
def isValidGrid (g : Grid) (requireComplete : Bool) : Bool :=
  (if requireComplete then allPositions.all fun p => !(g p.1 p.2 == 0) else true) &&
  ((List.range 9).all fun r => validateRow g r) &&
  ((List.range 9).all fun c => validateColumn g c) &&
  ((List.range 3).all fun i => (List.range 3).all fun j => validateSubgrid g (3 * i) (3 * j))

/-! ### Semantic counterparts of the validity predicates -/

/-- Every in-range cell is filled (no zeros). -/
def CompleteG (g : Grid) : Prop := ∀ r c, r < 9 → c < 9 → g r c ≠ 0

/-- Two cells lie in the same row, column, or 3×3 box. -/
def SameUnit (p q : Nat × Nat) : Prop :=
  p.1 = q.1 ∨ p.2 = q.2 ∨ (p.1 / 3 = q.1 / 3 ∧ p.2 / 3 = q.2 / 3)

/-- The cells `p`, `q` do not hold the same non-zero value. -/
def SepCells (g : Grid) (p q : Nat × Nat) : Prop :=
  g p.1 p.2 = 0 ∨ g q.1 q.2 = 0 ∨ g p.1 p.2 ≠ g q.1 q.2

/-- Semantic validity: in-range values are at most 9 and no two distinct
cells of a common row, column or box hold the same non-zero value. -/
def ValidG (g : Grid) : Prop :=
  (∀ r c, r < 9 → c < 9 → g r c ≤ 9) ∧
  (∀ p q : Nat × Nat, p.1 < 9 → p.2 < 9 → q.1 < 9 → q.2 < 9 →
    p ≠ q → SameUnit p q → SepCells g p q)

/-- `S` is a valid completion of the puzzle `g`: a complete valid grid that
agrees with every non-zero cell of `g`, and (canonically) with `g` off the
9×9 board, so that completions are compared as plain functions. -/
def IsCompletion (g S : Grid) : Prop :=
  CompleteG S ∧ ValidG S ∧
  (∀ r c, r < 9 → c < 9 → g r c ≠ 0 → S r c = g r c) ∧
  (∀ r c, ¬(r < 9 ∧ c < 9) → S r c = g r c)

/-! ### Basic facts about positions, scanning and the measure -/

theorem mem_allPositions {p : Nat × Nat} : p ∈ allPositions ↔ p.1 < 9 ∧ p.2 < 9 := by
  cases p with
  | mk r c =>
    constructor
    · intro h
      simp only [allPositions, List.mem_flatMap, List.mem_map, List.mem_range] at h
      obtain ⟨a, ha, b, hb, hab⟩ := h
      cases hab
      exact ⟨ha, hb⟩
    · rintro ⟨hr, hc⟩
      simp only [allPositions, List.mem_flatMap, List.mem_map, List.mem_range]
      exact ⟨r, hr, c, hc, rfl⟩

theorem findEmptyCell_eq_none {g : Grid} :
    findEmptyCell g = none ↔ ∀ r c, r < 9 → c < 9 → g r c ≠ 0 := by
  unfold findEmptyCell
  rw [List.find?_eq_none]
  constructor
  · intro h r c hr hc
    have := h (r, c) (mem_allPositions.2 ⟨hr, hc⟩)
    simpa using this
  · intro h p hp
    have hm := mem_allPositions.1 hp
    simpa using h p.1 p.2 hm.1 hm.2

theorem findEmptyCell_eq_some {g : Grid} {r c : Nat}
    (h : findEmptyCell g = some (r, c)) : r < 9 ∧ c < 9 ∧ g r c = 0 := by
  have hmem := List.mem_of_find?_eq_some h
  have hp := List.find?_some h
  have hm := mem_allPositions.1 hmem
  refine ⟨hm.1, hm.2, ?_⟩
  simpa using hp

theorem setCell_same (g : Grid) (r c v : Nat) : setCell g r c v r c = v := by
  simp [setCell]

theorem setCell_ne (g : Grid) {r c r' c' : Nat} (v : Nat) (h : ¬(r' = r ∧ c' = c)) :
    setCell g r c v r' c' = g r' c' := by
  simp [setCell, h]

/-- Restoring the just-zeroed cell gives back the original grid. -/
theorem setCell_restore (g : Grid) {r c : Nat} (v : Nat) (h : g r c = 0) :
    setCell (setCell g r c v) r c 0 = g := by
  funext r' c'
  by_cases hrc : r' = r ∧ c' = c
  · obtain ⟨h1, h2⟩ := hrc
    subst h1; subst h2
    simp [setCell, h]
  · simp [setCell, hrc]

/-- Restoring an arbitrary cell with its backed-up value gives back the grid. -/
theorem setCell_backup (g : Grid) (r c v : Nat) :
    setCell (setCell g r c v) r c (g r c) = g := by
  funext r' c'
  by_cases hrc : r' = r ∧ c' = c
  · obtain ⟨h1, h2⟩ := hrc
    subst h1; subst h2
    simp [setCell]
  · simp [setCell, hrc]

theorem numZeros_le (g : Grid) : numZeros g ≤ 81 := by
  have h := Finset.card_filter_le (Finset.range 9 ×ˢ Finset.range 9)
    (fun p => g p.1 p.2 = 0)
  simpa [numZeros] using h

theorem numZeros_setCell_lt {g : Grid} {r c v : Nat}
    (hr : r < 9) (hc : c < 9) (h0 : g r c = 0) (hv : v ≠ 0) :
    numZeros (setCell g r c v) < numZeros g := by
  apply Finset.card_lt_card
  rw [Finset.ssubset_iff_of_subset]
  · refine ⟨(r, c), ?_, ?_⟩
    · simp [Finset.mem_filter, Finset.mem_product, hr, hc, h0]
    · simp [Finset.mem_filter, setCell, hv]
  · intro p hp
    rw [Finset.mem_filter] at hp ⊢
    refine ⟨hp.1, ?_⟩
    have h2 := hp.2
    by_cases hrc : p.1 = r ∧ p.2 = c
    · exfalso
      rw [show p = (r, c) by ext <;> simp [hrc.1, hrc.2]] at h2
      rw [setCell_same] at h2
      exact hv h2
    · rwa [setCell_ne g v hrc] at h2

/-! ### Characterization of the validation functions -/

theorem validateCells_iff (g : Grid) (cells : List (Nat × Nat)) (seen : List Nat) :
    validateCells g cells seen = true ↔
      (∀ p ∈ cells, g p.1 p.2 ≤ 9) ∧
      (∀ p ∈ cells, g p.1 p.2 ≠ 0 → g p.1 p.2 ∉ seen) ∧
      List.Pairwise (SepCells g) cells := by
  induction cells generalizing seen with
  | nil => simp [validateCells]
  | cons p rest ih =>
    by_cases h0 : g p.1 p.2 = 0
    · rw [show validateCells g (p :: rest) seen = validateCells g rest seen by
        simp [validateCells, h0]]
      rw [ih]
      constructor
      · rintro ⟨h1, h2, h3⟩
        refine ⟨?_, ?_, ?_⟩
        · intro q hq
          rcases List.mem_cons.1 hq with hq | hq
          · subst hq; simp [h0]
          · exact h1 q hq
        · intro q hq
          rcases List.mem_cons.1 hq with hq | hq
          · subst hq; simp [h0]
          · exact h2 q hq
        · refine List.pairwise_cons.2 ⟨?_, h3⟩
          intro q _
          exact Or.inl h0
      · rintro ⟨h1, h2, h3⟩
        exact ⟨fun q hq => h1 q (List.mem_cons_of_mem p hq),
          fun q hq => h2 q (List.mem_cons_of_mem p hq), (List.pairwise_cons.1 h3).2⟩
    · by_cases h9 : g p.1 p.2 ≤ 9
      · by_cases hseen : g p.1 p.2 ∈ seen
        · rw [show validateCells g (p :: rest) seen = false by
            simp only [validateCells]
            rw [if_neg (by simpa using h0), if_neg (by
              simp only [Bool.or_eq_true, decide_eq_true_eq, not_or]
              omega), if_pos (by simpa [List.contains, List.elem_iff] using hseen)]]
          simp only [Bool.false_eq_true, false_iff, not_and]
          intro _ h2
          exact absurd hseen (h2 p (List.mem_cons_self p rest) h0)
        · rw [show validateCells g (p :: rest) seen =
              validateCells g rest (g p.1 p.2 :: seen) by
            simp only [validateCells]
            rw [if_neg (by simpa using h0), if_neg (by
              simp only [Bool.or_eq_true, decide_eq_true_eq, not_or]
              omega), if_neg (by simpa [List.contains, List.elem_iff] using hseen)]]
          rw [ih]
          constructor
          · rintro ⟨h1, h2, h3⟩
            refine ⟨?_, ?_, ?_⟩
            · intro q hq
              rcases List.mem_cons.1 hq with hq | hq
              · subst hq; exact h9
              · exact h1 q hq
            · intro q hq
              rcases List.mem_cons.1 hq with hq | hq
              · subst hq; exact fun _ => hseen
              · intro hq0
                have := h2 q hq hq0
                simp only [List.mem_cons, not_or] at this
                exact this.2
            · refine List.pairwise_cons.2 ⟨?_, h3⟩
              intro q hq
              by_cases hq0 : g q.1 q.2 = 0
              · exact Or.inr (Or.inl hq0)
              · have := h2 q hq hq0
                simp only [List.mem_cons, not_or] at this
                exact Or.inr (Or.inr fun he => this.1 he.symm)
          · rintro ⟨h1, h2, h3⟩
            have hp := (List.pairwise_cons.1 h3).1
            refine ⟨fun q hq => h1 q (List.mem_cons_of_mem p hq), ?_,
              (List.pairwise_cons.1 h3).2⟩
            intro q hq hq0
            have hsep := hp q hq
            rcases hsep with hs | hs | hs
            · exact absurd hs h0
            · exact absurd hs hq0
            · simp only [List.mem_cons, not_or]
              exact ⟨fun he => hs he.symm, h2 q (List.mem_cons_of_mem p hq) hq0⟩
      · rw [show validateCells g (p :: rest) seen = false by
          simp only [validateCells]
          rw [if_neg (by simpa using h0), if_pos (by
            simp only [Bool.or_eq_true, decide_eq_true_eq]
            omega)]]
        simp only [Bool.false_eq_true, false_iff, not_and]
        intro h1
        exact absurd (h1 p (List.mem_cons_self p rest)) h9

theorem sepCells_symm (g : Grid) : Symmetric (SepCells g) := by
  intro p q h
  rcases h with h | h | h
  · exact Or.inr (Or.inl h)
  · exact Or.inl h
  · exact Or.inr (Or.inr (Ne.symm h))

/-- From a pairwise-distinct membership property to `Pairwise`, given the
list has no duplicates. -/
theorem pairwise_of_nodup_of_forall {α : Type} {R : α → α → Prop} {l : List α}
    (hnd : l.Nodup) (h : ∀ a ∈ l, ∀ b ∈ l, a ≠ b → R a b) : l.Pairwise R := by
  rw [List.pairwise_iff_forall_sublist]
  intro a b hs
  have hne : a ≠ b := by
    have := hnd.sublist hs
    simpa using (List.pairwise_cons.1 this).1 b (List.mem_singleton_self b)
  exact h a (hs.subset (by simp)) b (hs.subset (by simp)) hne

theorem mem_rowCells {r : Nat} {p : Nat × Nat} :
    p ∈ rowCells r ↔ p.1 = r ∧ p.2 < 9 := by
  cases p with
  | mk a b =>
    simp only [rowCells, List.mem_map, List.mem_range, Prod.mk.injEq]
    constructor
    · rintro ⟨c, hc, h1, h2⟩; subst h1; subst h2; exact ⟨rfl, hc⟩
    · rintro ⟨h1, h2⟩; exact ⟨b, h2, h1.symm, rfl⟩

theorem mem_colCells {c : Nat} {p : Nat × Nat} :
    p ∈ colCells c ↔ p.2 = c ∧ p.1 < 9 := by
  cases p with
  | mk a b =>
    simp only [colCells, List.mem_map, List.mem_range, Prod.mk.injEq]
    constructor
    · rintro ⟨r, hr, h1, h2⟩; subst h1; subst h2; exact ⟨rfl, hr⟩
    · rintro ⟨h1, h2⟩; exact ⟨a, h2, rfl, h1.symm⟩

theorem mem_boxCells {br bc : Nat} {p : Nat × Nat} :
    p ∈ boxCells br bc ↔
      br ≤ p.1 ∧ p.1 < br + 3 ∧ bc ≤ p.2 ∧ p.2 < bc + 3 := by
  cases p with
  | mk a b =>
    simp only [boxCells, List.mem_flatMap, List.mem_map, List.mem_range, Prod.mk.injEq]
    constructor
    · rintro ⟨dr, hdr, dc, hdc, h1, h2⟩
      subst h1; subst h2
      omega
    · rintro ⟨h1, h2, h3, h4⟩
      exact ⟨a - br, by omega, b - bc, by omega, by omega, by omega⟩

theorem nodup_rowCells (r : Nat) : (rowCells r).Nodup := by
  apply List.Nodup.map
  · intro a b h
    exact (Prod.mk.injEq _ _ _ _ ▸ h).2
  · exact List.nodup_range 9

theorem nodup_colCells (c : Nat) : (colCells c).Nodup := by
  apply List.Nodup.map
  · intro a b h
    exact (Prod.mk.injEq _ _ _ _ ▸ h).1
  · exact List.nodup_range 9

theorem nodup_boxCells (br bc : Nat) : (boxCells br bc).Nodup := by
  unfold boxCells
  rw [List.nodup_flatMap]
  constructor
  · intro dr _
    apply List.Nodup.map
    · intro a b h
      exact Nat.add_left_cancel (Prod.mk.injEq _ _ _ _ ▸ h).2
    · exact List.nodup_range 3
  · apply pairwise_of_nodup_of_forall (List.nodup_range 3)
    intro dr1 _ dr2 _ hne
    intro x hx1 hx2
    simp only [Function.onFun, List.mem_map, List.mem_range] at hx1 hx2
    obtain ⟨a, _, ha⟩ := hx1
    obtain ⟨b, _, hb⟩ := hx2
    apply hne
    have h1 := (Prod.mk.injEq _ _ _ _ ▸ ha.trans hb.symm).1
    omega

/-- The row/column/box checks of `isValidGrid` are exactly semantic validity. -/
theorem validChecks_iff (g : Grid) :
    (((List.range 9).all fun r => validateRow g r) &&
     ((List.range 9).all fun c => validateColumn g c) &&
     ((List.range 3).all fun i => (List.range 3).all fun j =>
        validateSubgrid g (3 * i) (3 * j))) = true ↔ ValidG g := by
  simp only [Bool.and_eq_true, List.all_eq_true, List.mem_range]
  constructor
  · rintro ⟨⟨hrow, hcol⟩, hbox⟩
    constructor
    · intro r c hr hc
      have h := (validateCells_iff g (rowCells r) []).1 (hrow r hr)
      exact h.1 (r, c) (mem_rowCells.2 ⟨rfl, hc⟩)
    · intro p q hp1 hp2 hq1 hq2 hne hu
      rcases hu with hu | hu | hu
      · have h := (validateCells_iff g (rowCells p.1) []).1 (hrow p.1 hp1)
        exact h.2.2.forall (sepCells_symm g) (mem_rowCells.2 ⟨rfl, hp2⟩)
          (mem_rowCells.2 ⟨hu.symm, hq2⟩) hne
      · have h := (validateCells_iff g (colCells p.2) []).1 (hcol p.2 hp2)
        exact h.2.2.forall (sepCells_symm g) (mem_colCells.2 ⟨rfl, hp1⟩)
          (mem_colCells.2 ⟨hu.symm, hq1⟩) hne
      · have hi : p.1 / 3 < 3 := by omega
        have hj : p.2 / 3 < 3 := by omega
        have h := (validateCells_iff g (boxCells (3 * (p.1 / 3)) (3 * (p.2 / 3))) []).1
          (hbox (p.1 / 3) hi (p.2 / 3) hj)
        refine h.2.2.forall (sepCells_symm g) (mem_boxCells.2 ?_) (mem_boxCells.2 ?_) hne
        · omega
        · omega
  · rintro ⟨hb, hsep⟩
    refine ⟨⟨?_, ?_⟩, ?_⟩
    · intro r hr
      refine (validateCells_iff g (rowCells r) []).2 ⟨?_, by simp, ?_⟩
      · intro p hp
        have hm := mem_rowCells.1 hp
        exact hb p.1 p.2 (hm.1 ▸ hr) hm.2
      · refine pairwise_of_nodup_of_forall (nodup_rowCells r) ?_
        intro p hp q hq hne
        have hmp := mem_rowCells.1 hp
        have hmq := mem_rowCells.1 hq
        exact hsep p q (hmp.1 ▸ hr) hmp.2 (hmq.1 ▸ hr) hmq.2 hne
          (Or.inl (hmp.1.trans hmq.1.symm))
    · intro c hc
      refine (validateCells_iff g (colCells c) []).2 ⟨?_, by simp, ?_⟩
      · intro p hp
        have hm := mem_colCells.1 hp
        exact hb p.1 p.2 hm.2 (hm.1 ▸ hc)
      · refine pairwise_of_nodup_of_forall (nodup_colCells c) ?_
        intro p hp q hq hne
        have hmp := mem_colCells.1 hp
        have hmq := mem_colCells.1 hq
        exact hsep p q hmp.2 (hmp.1 ▸ hc) hmq.2 (hmq.1 ▸ hc) hne
          (Or.inr (Or.inl (hmp.1.trans hmq.1.symm)))
    · intro i hi j hj
      refine (validateCells_iff g (boxCells (3 * i) (3 * j)) []).2 ⟨?_, by simp, ?_⟩
      · intro p hp
        have hm := mem_boxCells.1 hp
        exact hb p.1 p.2 (by omega) (by omega)
      · refine pairwise_of_nodup_of_forall (nodup_boxCells (3 * i) (3 * j)) ?_
        intro p hp q hq hne
        have hmp := mem_boxCells.1 hp
        have hmq := mem_boxCells.1 hq
        refine hsep p q (by omega) (by omega) (by omega) (by omega) hne
          (Or.inr (Or.inr ⟨by omega, by omega⟩))

theorem isValidGrid_false_iff (g : Grid) : isValidGrid g false = true ↔ ValidG g := by
  unfold isValidGrid
  rw [show (if false then allPositions.all fun p => !(g p.1 p.2 == 0) else true) = true
    from rfl]
  rw [Bool.true_and]
  exact validChecks_iff g

theorem isValidGrid_true_iff (g : Grid) :
    isValidGrid g true = true ↔ CompleteG g ∧ ValidG g := by
  unfold isValidGrid
  rw [show (if true then allPositions.all fun p => !(g p.1 p.2 == 0) else true)
      = allPositions.all fun p => !(g p.1 p.2 == 0) from rfl]
  rw [Bool.and_assoc, Bool.and_assoc, Bool.and_eq_true]
  rw [← Bool.and_assoc, validChecks_iff g]
  constructor
  · rintro ⟨h1, h2⟩
    refine ⟨?_, h2⟩
    intro r c hr hc
    have := List.all_eq_true.1 h1 (r, c) (mem_allPositions.2 ⟨hr, hc⟩)
    simpa using this
  · rintro ⟨h1, h2⟩
    refine ⟨?_, h2⟩
    refine List.all_eq_true.2 ?_
    intro p hp
    have hm := mem_allPositions.1 hp
    simpa using h1 p.1 p.2 hm.1 hm.2

theorem isValidPlacement_iff {g : Grid} {row col num : Nat}
    (hr : row < 9) (hc : col < 9) :
    isValidPlacement g row col num = true ↔
      (∀ c, c < 9 → g row c ≠ num) ∧
      (∀ r, r < 9 → g r col ≠ num) ∧
      (∀ r c, r < 9 → c < 9 → r / 3 = row / 3 → c / 3 = col / 3 → g r c ≠ num) := by
  unfold isValidPlacement
  simp only [Bool.and_eq_true, Bool.not_eq_true', List.any_eq_false, List.mem_range,
    Bool.not_eq_true, beq_eq_false_iff_ne, ne_eq]
  constructor
  · rintro ⟨⟨h1, h2⟩, h3⟩
    refine ⟨h1, h2, ?_⟩
    intro r c hr9 hc9 hrq hcq
    have h4 := h3 (r - row / 3 * 3) (by omega) (c - col / 3 * 3) (by omega)
    have her : row / 3 * 3 + (r - row / 3 * 3) = r := by omega
    have hec : col / 3 * 3 + (c - col / 3 * 3) = c := by omega
    rwa [her, hec] at h4
  · rintro ⟨h1, h2, h3⟩
    refine ⟨⟨h1, h2⟩, ?_⟩
    intro dr hdr dc hdc
    exact h3 (row / 3 * 3 + dr) (col / 3 * 3 + dc) (by omega) (by omega)
      (by omega) (by omega)

/-- Placing an allowed value in an empty cell of a valid grid keeps it valid. -/
theorem validG_setCell {g : Grid} {r c num : Nat} (h : ValidG g)
    (hr : r < 9) (hc : c < 9) (h0 : g r c = 0) (h1 : 1 ≤ num) (h9 : num ≤ 9)
    (hvp : isValidPlacement g r c num = true) : ValidG (setCell g r c num) := by
  obtain ⟨hrow, hcol, hbox⟩ := (isValidPlacement_iff hr hc).1 hvp
  constructor
  · intro a b ha hb
    by_cases hab : a = r ∧ b = c
    · rw [show setCell g r c num a b = num by simp [setCell, hab]]
      exact h9
    · rw [setCell_ne g num hab]
      exact h.1 a b ha hb
  · rintro ⟨p1, p2⟩ ⟨q1, q2⟩ hp1 hp2 hq1 hq2 hne hu
    simp only at hp1 hp2 hq1 hq2
    have hnum0 : num ≠ 0 := by omega
    by_cases hpc : p1 = r ∧ p2 = c
    · obtain ⟨hpr, hpc2⟩ := hpc
      subst hpr; subst hpc2
      have hqne : ¬(q1 = p1 ∧ q2 = p2) := by
        intro hq
        exact hne (by simp [hq.1, hq.2])
      unfold SepCells
      simp only
      rw [setCell_same, setCell_ne g num hqne]
      by_cases hq0 : g q1 q2 = 0
      · exact Or.inr (Or.inl hq0)
      · refine Or.inr (Or.inr ?_)
        intro he
        unfold SameUnit at hu
        simp only at hu
        rcases hu with hu | hu | hu
        · exact hrow q2 hq2 (by rw [hu]; exact he.symm)
        · exact hcol q1 hq1 (by rw [hu]; exact he.symm)
        · exact hbox q1 q2 hq1 hq2 hu.1.symm hu.2.symm he.symm
    · by_cases hqc : q1 = r ∧ q2 = c
      · obtain ⟨hqr, hqc2⟩ := hqc
        subst hqr; subst hqc2
        unfold SepCells
        simp only
        rw [setCell_same, setCell_ne g num hpc]
        by_cases hp0 : g p1 p2 = 0
        · exact Or.inl hp0
        · refine Or.inr (Or.inr ?_)
          intro he
          unfold SameUnit at hu
          simp only at hu
          rcases hu with hu | hu | hu
          · exact hrow p2 hp2 (by rw [← hu]; exact he)
          · exact hcol p1 hp1 (by rw [← hu]; exact he)
          · exact hbox p1 p2 hp1 hp2 hu.1 hu.2 he
      · unfold SepCells
        simp only
        rw [setCell_ne g num hpc, setCell_ne g num hqc]
        exact h.2 (p1, p2) (q1, q2) hp1 hp2 hq1 hq2 hne hu

/-- A grid each of whose cells is either empty or equal to the corresponding
cell of a valid grid is itself valid. -/
theorem validG_of_subgrid {g S : Grid} (hS : ValidG S)
    (h : ∀ r c, r < 9 → c < 9 → g r c = 0 ∨ g r c = S r c) : ValidG g := by
  constructor
  · intro r c hr hc
    rcases h r c hr hc with h0 | h0
    · omega
    · rw [h0]; exact hS.1 r c hr hc
  · intro p q hp1 hp2 hq1 hq2 hne hu
    rcases h p.1 p.2 hp1 hp2 with h0 | h0
    · exact Or.inl h0
    · rcases h q.1 q.2 hq1 hq2 with h1 | h1
      · exact Or.inr (Or.inl h1)
      · unfold SepCells
        rw [h0, h1]
        exact hS.2 p q hp1 hp2 hq1 hq2 hne hu

/-! ### The backtracking search

`fillGrid`, `solveGrid` and `countSolutions` recurse on the first empty cell.
Each is defined with a fuel parameter (always used with fuel 82, which the
measure lemmas show can never be exhausted) together with an explicit loop
function for its `for num …` loop.  `completionsFuel` is a proof-side helper
(not part of the source): it collects, in the order the solver's loop visits
them, the leaves of the search tree explored by `solveGrid`/`countSolutions`. -/

/-- The candidate values `1..9` tried in ascending order by the solver. -/
def nums1to9 : List Nat := List.range' 1 9

/-- The `for num` loop of `solveGrid`: try each candidate, return the first
solved grid, undoing (keeping `g`) after a failed branch. -/
def solveLoop (go : Grid → Option Grid) (g : Grid) (r c : Nat) : List Nat → Option Grid
  | [] => none
  | num :: rest =>
    if isValidPlacement g r c num then
      match go (setCell g r c num) with
      | some s => some s
      | none => solveLoop go g r c rest
    else solveLoop go g r c rest

/-- `solveGrid(grid)`: backtracking solver trying values in ascending order.
The JavaScript function returns a success flag and leaves the solved grid in
its argument; the model returns `some` of the solved grid, or `none` with the
argument (restored by the undo writes) unchanged. -/
def solveFuel : Nat → Grid → Option Grid
  | 0, _ => none
  | fuel + 1, g =>
    match findEmptyCell g with
    | none => some g
    | some (r, c) => solveLoop (solveFuel fuel) g r c nums1to9

/-- Proof-side helper: all leaves of the solver's search tree, in visit order. -/
def clLoop (go : Grid → List Grid) (g : Grid) (r c : Nat) : List Nat → List Grid
  | [] => []
  | num :: rest =>
    (if isValidPlacement g r c num then go (setCell g r c num) else []) ++
      clLoop go g r c rest

/-- Proof-side helper: the complete grids reachable from `g` by repeatedly
placing a valid value `1..9` in the first empty cell, in the order the
solver's search visits them. -/
def completionsFuel : Nat → Grid → List Grid
  | 0, _ => []
  | fuel + 1, g =>
    match findEmptyCell g with
    | none => [g]
    | some (r, c) => clLoop (completionsFuel fuel) g r c nums1to9

/-- The `for num` loop of `countSolutions`, threading the shared counter and
the in-place grid: place, recurse, restore the cell to 0, and exit early as
soon as the counter exceeds 1. -/
def csLoop (go : Grid → Nat → Nat × Grid) (r c : Nat) :
    List Nat → Nat → Grid → Nat × Grid
  | [], cnt, g => (cnt, g)
  | num :: rest, cnt, g =>
    if isValidPlacement g r c num then
      match go (setCell g r c num) cnt with
      | (cnt', g') =>
        if cnt' > 1 then (cnt', setCell g' r c 0)
        else csLoop go r c rest cnt' (setCell g' r c 0)
    else csLoop go r c rest cnt g

/-- `countSolutions(grid, count)`: returns the final counter value together
with the final state of the (mutated and restored) grid argument. -/
def countSolutionsAux : Nat → Grid → Nat → Nat × Grid
  | 0, g, cnt => (cnt, g)
  | fuel + 1, g, cnt =>
    if cnt > 1 then (cnt, g)
    else
      match findEmptyCell g with
      | none => (cnt + 1, g)
      | some (r, c) => csLoop (countSolutionsAux fuel) r c nums1to9 cnt g

/-- `countSolutions(grid)` with the default counter object `{value: 0}` is
`countSolutions g 0`; the JavaScript function returns `count.value`. -/
def countSolutions (g : Grid) (cnt : Nat) : Nat := (countSolutionsAux 82 g cnt).1

/-- `hasUniqueSolution(puzzle)`: count solutions on a copy, compare with 1.
Copying is the identity in the functional model. -/
def hasUniqueSolution (p : Grid) : Bool := countSolutions p 0 == 1

/-- `solve(puzzle)`: solve a copy, return it on success and null on failure. -/
def solve (p : Grid) : Option Grid := solveFuel 82 p

/-- The `for num` loop of `fillGrid`, over a pre-shuffled candidate list. -/
def fillLoop (go : Grid → RNG → Option Grid × RNG) (g : Grid) (r c : Nat) :
    List Nat → RNG → Option Grid × RNG
  | [], σ => (none, σ)
  | num :: rest, σ =>
    if isValidPlacement g r c num then
      match go (setCell g r c num) σ with
      | (some s, σ') => (some s, σ')
      | (none, σ') => fillLoop go g r c rest σ'
    else fillLoop go g r c rest σ

theorem mem_nums1to9 {n : Nat} : n ∈ nums1to9 ↔ 1 ≤ n ∧ n ≤ 9 := by
  unfold nums1to9
  rw [List.mem_range'_1]
  omega

theorem nodup_nums1to9 : nums1to9.Nodup := by
  unfold nums1to9
  exact List.nodup_range' 1 9

theorem mem_clLoop {go : Grid → List Grid} {g : Grid} {r c : Nat} {nums : List Nat}
    {S : Grid} :
    S ∈ clLoop go g r c nums ↔
      ∃ num ∈ nums, isValidPlacement g r c num = true ∧ S ∈ go (setCell g r c num) := by
  induction nums with
  | nil => simp [clLoop]
  | cons num rest ih =>
    simp only [clLoop, List.mem_append, ih, List.mem_cons]
    by_cases hv : isValidPlacement g r c num = true
    · simp only [if_pos hv]
      constructor
      · rintro (h | ⟨n, hn, hv', hS⟩)
        · exact ⟨num, Or.inl rfl, hv, h⟩
        · exact ⟨n, Or.inr hn, hv', hS⟩
      · rintro ⟨n, hn | hn, hv', hS⟩
        · subst hn; exact Or.inl hS
        · exact Or.inr ⟨n, hn, hv', hS⟩
    · simp only [if_neg hv, List.not_mem_nil, false_or]
      constructor
      · rintro ⟨n, hn, hv', hS⟩
        exact ⟨n, Or.inr hn, hv', hS⟩
      · rintro ⟨n, hn | hn, hv', hS⟩
        · subst hn; exact absurd hv' hv
        · exact ⟨n, hn, hv', hS⟩

/-- Properties of the search-tree leaves: each is complete, agrees with the
non-zero and off-board cells of the start grid, and is valid when the start
grid is valid. -/
theorem completionsFuel_mem {fuel : Nat} :
    ∀ {g S : Grid}, S ∈ completionsFuel fuel g →
      CompleteG S ∧
      (∀ r c, r < 9 → c < 9 → g r c ≠ 0 → S r c = g r c) ∧
      (∀ r c, ¬(r < 9 ∧ c < 9) → S r c = g r c) ∧
      (ValidG g → ValidG S) := by
  induction fuel with
  | zero => intro g S h; simp [completionsFuel] at h
  | succ fuel ih =>
    intro g S h
    rw [completionsFuel] at h
    cases hfind : findEmptyCell g with
    | none =>
      rw [hfind] at h
      simp only [List.mem_singleton] at h
      subst h
      exact ⟨findEmptyCell_eq_none.1 hfind, fun _ _ _ _ _ => rfl,
        fun _ _ _ => rfl, id⟩
    | some p =>
      obtain ⟨r, c⟩ := p
      rw [hfind] at h
      obtain ⟨hr, hc, h0⟩ := findEmptyCell_eq_some hfind
      obtain ⟨num, hnum, hvp, hS⟩ := mem_clLoop.1 h
      obtain ⟨hn1, hn9⟩ := mem_nums1to9.1 hnum
      obtain ⟨ihc, ihext, ihoff, ihval⟩ := ih hS
      refine ⟨ihc, ?_, ?_, ?_⟩
      · intro r' c' hr' hc' hne0
        have hne : ¬(r' = r ∧ c' = c) := by
          rintro ⟨h1, h2⟩
          subst h1; subst h2
          exact hne0 h0
        have := ihext r' c' hr' hc' (by rwa [setCell_ne g num hne])
        rwa [setCell_ne g num hne] at this
      · intro r' c' hoff
        have hne : ¬(r' = r ∧ c' = c) := by
          rintro ⟨h1, h2⟩
          subst h1; subst h2
          exact hoff ⟨hr, hc⟩
        have := ihoff r' c' hoff
        rwa [setCell_ne g num hne] at this
      · intro hval
        exact ihval (validG_setCell hval hr hc h0 hn1 hn9 hvp)

/-- Every valid completion of `g` is a leaf of the search tree. -/
theorem isCompletion_mem_completionsFuel {fuel : Nat} :
    ∀ {g S : Grid}, numZeros g < fuel → IsCompletion g S →
      S ∈ completionsFuel fuel g := by
  induction fuel with
  | zero => intro g S h _; omega
  | succ fuel ih =>
    intro g S hfuel h
    obtain ⟨hcomp, hval, hext, hoff⟩ := h
    rw [completionsFuel]
    cases hfind : findEmptyCell g with
    | none =>
      have hfull := findEmptyCell_eq_none.1 hfind
      have hSg : S = g := by
        funext r c
        by_cases hin : r < 9 ∧ c < 9
        · exact hext r c hin.1 hin.2 (hfull r c hin.1 hin.2)
        · exact hoff r c hin
      show S ∈ [g]
      simp [hSg]
    | some p =>
      obtain ⟨r, c⟩ := p
      obtain ⟨hr, hc, h0⟩ := findEmptyCell_eq_some hfind
      set num := S r c with hnumdef
      have hn0 : num ≠ 0 := hcomp r c hr hc
      have hn9 : num ≤ 9 := hval.1 r c hr hc
      have hvp : isValidPlacement g r c num = true := by
        rw [isValidPlacement_iff hr hc]
        refine ⟨?_, ?_, ?_⟩
        · intro c' hc' he
          have hnec : c' ≠ c := fun hcc => by rw [hcc] at he; omega
          have hS : S r c' = num := by rw [hext r c' hr hc' (by omega)]; exact he
          have := hval.2 (r, c) (r, c') hr hc hr hc'
            (by simp [Prod.ext_iff]; omega) (Or.inl rfl)
          unfold SepCells at this
          simp only [hnumdef] at this
          rcases this with hx | hx | hx
          · exact hn0 hx
          · rw [hS] at hx; exact hn0 hx
          · rw [hS] at hx; exact hx rfl
        · intro r' hr' he
          have hner : r' ≠ r := fun hrr => by rw [hrr] at he; omega
          have hS : S r' c = num := by rw [hext r' c hr' hc (by omega)]; exact he
          have := hval.2 (r, c) (r', c) hr hc hr' hc
            (by simp [Prod.ext_iff]; omega) (Or.inr (Or.inl rfl))
          unfold SepCells at this
          simp only [hnumdef] at this
          rcases this with hx | hx | hx
          · exact hn0 hx
          · rw [hS] at hx; exact hn0 hx
          · rw [hS] at hx; exact hx rfl
        · intro r' c' hr' hc' hbr hbc he
          have hne : (r, c) ≠ (r', c') := by
            intro hpq
            rw [Prod.mk.injEq] at hpq
            rw [← hpq.1, ← hpq.2] at he
            omega
          have hS : S r' c' = num := by
            rw [hext r' c' hr' hc' (by omega)]; exact he
          have := hval.2 (r, c) (r', c') hr hc hr' hc' hne
            (Or.inr (Or.inr ⟨hbr.symm, hbc.symm⟩))
          unfold SepCells at this
          simp only [hnumdef] at this
          rcases this with hx | hx | hx
          · exact hn0 hx
          · rw [hS] at hx; exact hn0 hx
          · rw [hS] at hx; exact hx rfl
      show S ∈ clLoop (completionsFuel fuel) g r c nums1to9
      rw [mem_clLoop]
      refine ⟨num, mem_nums1to9.2 ⟨by omega, hn9⟩, hvp, ?_⟩
      refine ih ?_ ⟨hcomp, hval, ?_, ?_⟩
      · have := numZeros_setCell_lt hr hc h0 hn0
        omega
      · intro r' c' hr' hc' hne0
        by_cases hrc : r' = r ∧ c' = c
        · obtain ⟨h1, h2⟩ := hrc
          subst h1; subst h2
          rw [setCell_same]
        · rw [setCell_ne g num hrc] at hne0 ⊢
          exact hext r' c' hr' hc' hne0
      · intro r' c' hoff'
        have hne : ¬(r' = r ∧ c' = c) := by
          rintro ⟨h1, h2⟩
          subst h1; subst h2
          exact hoff' ⟨hr, hc⟩
        rw [setCell_ne g num hne]
        exact hoff r' c' hoff'

/-- If all leaves below a branch value carry that value at the branch cell,
the concatenated leaf lists of distinct branch values are disjoint, so the
collected list has no duplicates. -/
theorem clLoop_nodup {go : Grid → List Grid} {g : Grid} {r c : Nat}
    (hgo : ∀ g', (go g').Nodup)
    (hmark : ∀ num S, S ∈ go (setCell g r c num) → num ≠ 0 → S r c = num) :
    ∀ {nums : List Nat}, nums.Nodup → (∀ n ∈ nums, n ≠ 0) →
      (clLoop go g r c nums).Nodup := by
  intro nums
  induction nums with
  | nil => intro _ _; simp [clLoop]
  | cons num rest ih =>
    intro hnd hn0
    rw [clLoop]
    apply List.Nodup.append
    · by_cases hv : isValidPlacement g r c num = true
      · rw [if_pos hv]; exact hgo _
      · rw [if_neg hv]; exact List.nodup_nil
    · exact ih (List.nodup_cons.1 hnd).2 fun n hn => hn0 n (List.mem_cons_of_mem num hn)
    · intro S hS1 hS2
      rw [List.mem_ite_nil_right] at hS1
      obtain ⟨num', hnum', hv', hS'⟩ := mem_clLoop.1 hS2
      have h1 : S r c = num :=
        hmark num S hS1.2 (hn0 num (List.mem_cons_self num rest))
      have h2 : S r c = num' :=
        hmark num' S hS' (hn0 num' (List.mem_cons_of_mem num hnum'))
      have heq : num = num' := h1.symm.trans h2
      exact (List.nodup_cons.1 hnd).1 (heq ▸ hnum')

/-- The leaf list of the search tree has no duplicates. -/
theorem completionsFuel_nodup {fuel : Nat} :
    ∀ {g : Grid}, (completionsFuel fuel g).Nodup := by
  induction fuel with
  | zero => intro g; simp [completionsFuel]
  | succ fuel ih =>
    intro g
    rw [completionsFuel]
    cases hfind : findEmptyCell g with
    | none => simp
    | some p =>
      obtain ⟨r, c⟩ := p
      obtain ⟨hr, hc, _⟩ := findEmptyCell_eq_some hfind
      show (clLoop (completionsFuel fuel) g r c nums1to9).Nodup
      refine clLoop_nodup (fun _ => ih) ?_ nodup_nums1to9 ?_
      · intro num S hS hn0
        have := (completionsFuel_mem hS).2.1 r c hr hc
          (by rw [setCell_same]; exact hn0)
        rwa [setCell_same] at this
      · intro n hn
        have := mem_nums1to9.1 hn
        omega

theorem solveLoop_eq_head {go : Grid → Option Grid} {go' : Grid → List Grid}
    (hgo : ∀ g', go g' = (go' g').head?) (g : Grid) (r c : Nat) :
    ∀ nums, solveLoop go g r c nums = (clLoop go' g r c nums).head? := by
  intro nums
  induction nums with
  | nil => simp [solveLoop, clLoop]
  | cons num rest ih =>
    rw [solveLoop, clLoop]
    by_cases hv : isValidPlacement g r c num = true
    · rw [if_pos hv, if_pos hv, hgo]
      cases hcl : go' (setCell g r c num) with
      | nil => simpa using ih
      | cons x xs => simp
    · rw [if_neg hv, if_neg hv]
      simpa using ih

/-- The deterministic solver returns the first leaf of the search tree. -/
theorem solveFuel_eq_head {fuel : Nat} :
    ∀ {g : Grid}, solveFuel fuel g = (completionsFuel fuel g).head? := by
  induction fuel with
  | zero => intro g; simp [solveFuel, completionsFuel]
  | succ fuel ih =>
    intro g
    rw [solveFuel, completionsFuel]
    cases findEmptyCell g with
    | none => simp
    | some p =>
      obtain ⟨r, c⟩ := p
      exact solveLoop_eq_head (fun g' => ih) g r c nums1to9

/-- On every return path the counting pass hands back the grid it was given:
all speculative placements have been undone. -/
theorem csLoop_grid {go : Grid → Nat → Nat × Grid} {r c : Nat}
    (hgo : ∀ g' cnt', (go g' cnt').2 = g') :
    ∀ nums {cnt : Nat} {g : Grid}, g r c = 0 →
      (csLoop go r c nums cnt g).2 = g := by
  intro nums
  induction nums with
  | nil => intro cnt g h0; simp [csLoop]
  | cons num rest ih =>
    intro cnt g h0
    rw [csLoop]
    by_cases hv : isValidPlacement g r c num = true
    · rw [if_pos hv]
      rcases hres : go (setCell g r c num) cnt with ⟨cnt2, g2⟩
      have hg2 : g2 = setCell g r c num := by
        have := hgo (setCell g r c num) cnt
        rw [hres] at this
        exact this
      subst hg2
      show (if cnt2 > 1 then (cnt2, setCell (setCell g r c num) r c 0)
        else csLoop go r c rest cnt2 (setCell (setCell g r c num) r c 0)).2 = g
      by_cases hgt : cnt2 > 1
      · simp only [if_pos hgt]
        exact setCell_restore g num h0
      · simp only [if_neg hgt]
        rw [setCell_restore g num h0]
        exact ih h0
    · rw [if_neg hv]
      exact ih h0

theorem countSolutionsAux_grid {fuel : Nat} :
    ∀ {g : Grid} {cnt : Nat}, (countSolutionsAux fuel g cnt).2 = g := by
  induction fuel with
  | zero => intro g cnt; simp [countSolutionsAux]
  | succ fuel ih =>
    intro g cnt
    rw [countSolutionsAux]
    by_cases hgt : cnt > 1
    · simp [hgt]
    · simp only [if_neg hgt]
      cases hfind : findEmptyCell g with
      | none => simp
      | some p =>
        obtain ⟨r, c⟩ := p
        obtain ⟨_, _, h0⟩ := findEmptyCell_eq_some hfind
        exact csLoop_grid (fun g' cnt' => ih) nums1to9 h0

/-- The counting loop computes `min (cnt + number of leaves) 2` while leaving
the grid unchanged. -/
theorem csLoop_eq {fuel : Nat} {go : Grid → Nat → Nat × Grid} {go' : Grid → List Grid}
    {r c : Nat} (hr : r < 9) (hc : c < 9)
    (hgo : ∀ g' cnt', numZeros g' < fuel → cnt' ≤ 2 →
      go g' cnt' = (min (cnt' + (go' g').length) 2, g')) :
    ∀ nums, (∀ n ∈ nums, n ≠ 0) → ∀ {g : Grid} {cnt : Nat},
      g r c = 0 → numZeros g < fuel + 1 → cnt ≤ 1 →
      csLoop go r c nums cnt g = (min (cnt + (clLoop go' g r c nums).length) 2, g) := by
  intro nums
  induction nums with
  | nil =>
    intro _ g cnt h0 hfuel hcnt
    rw [csLoop, clLoop]
    simp only [List.length_nil, Nat.add_zero]
    rw [Nat.min_eq_left (by omega)]
  | cons num rest ih =>
    intro hn0 g cnt h0 hfuel hcnt
    rw [csLoop, clLoop]
    by_cases hv : isValidPlacement g r c num = true
    · rw [if_pos hv, if_pos hv]
      have hnz : numZeros (setCell g r c num) < fuel := by
        have := numZeros_setCell_lt hr hc h0 (hn0 num (List.mem_cons_self num rest))
        omega
      rw [hgo (setCell g r c num) cnt hnz (by omega)]
      set lc := (go' (setCell g r c num)).length with hlc
      by_cases hgt : min (cnt + lc) 2 > 1
      · simp only [if_pos hgt]
        rw [setCell_restore g num h0]
        rw [List.length_append]
        have : min (cnt + (lc + (clLoop go' g r c rest).length)) 2 = 2 := by omega
        rw [this]
        have h2 : min (cnt + lc) 2 = 2 := by omega
        rw [h2]
      · simp only [if_neg hgt]
        rw [setCell_restore g num h0]
        have hle : min (cnt + lc) 2 = cnt + lc := by omega
        rw [hle]
        rw [ih (fun n hn => hn0 n (List.mem_cons_of_mem num hn)) h0 hfuel (by omega)]
        rw [List.length_append]
        have : cnt + lc + (clLoop go' g r c rest).length
            = cnt + (lc + (clLoop go' g r c rest).length) := by omega
        rw [this]
    · rw [if_neg hv, if_neg hv]
      rw [ih (fun n hn => hn0 n (List.mem_cons_of_mem num hn)) h0 hfuel hcnt]
      simp

/-- `countSolutions` computes the number of leaves of the search tree, capped
at 2, added to the incoming counter. -/
theorem countSolutionsAux_eq {fuel : Nat} :
    ∀ {g : Grid} {cnt : Nat}, numZeros g < fuel → cnt ≤ 2 →
      countSolutionsAux fuel g cnt
        = (min (cnt + (completionsFuel fuel g).length) 2, g) := by
  induction fuel with
  | zero => intro g cnt h _; omega
  | succ fuel ih =>
    intro g cnt hfuel hcnt
    rw [countSolutionsAux, completionsFuel]
    by_cases hgt : cnt > 1
    · rw [if_pos hgt]
      have : min (cnt + (match findEmptyCell g with
          | none => [g]
          | some (r, c) => clLoop (completionsFuel fuel) g r c nums1to9).length) 2
          = 2 := by omega
      rw [this]
      have h2 : cnt = 2 := by omega
      rw [h2]
    · rw [if_neg hgt]
      cases hfind : findEmptyCell g with
      | none =>
        simp only [List.length_singleton]
        rw [Nat.min_eq_left (by omega)]
      | some p =>
        obtain ⟨r, c⟩ := p
        obtain ⟨hr, hc, h0⟩ := findEmptyCell_eq_some hfind
        exact csLoop_eq hr hc (fun g' cnt' => ih) nums1to9
          (fun n hn => by have := mem_nums1to9.1 hn; omega) h0 hfuel (by omega)

/-! ### `shuffleArray` (Fisher–Yates on a copy) -/

/-- One step of the Fisher–Yates loop:
`[shuffled[i], shuffled[j]] = [shuffled[j], shuffled[i]]`.  Out-of-range
indices leave the list unchanged (never the case in the source's loop). -/
def swapIdx {α : Type} (l : List α) (i j : Nat) : List α :=
  match l[i]?, l[j]? with
  | some a, some b => (l.set i b).set j a
  | _, _ => l

theorem count_set {α : Type} [DecidableEq α] :
    ∀ (l : List α) (i : Nat) (v a : α), l[i]? = some a → ∀ x : α,
      (l.set i v).count x + (if a == x then 1 else 0)
        = l.count x + (if v == x then 1 else 0) := by
  intro l
  induction l with
  | nil => intro i v a h x; simp at h
  | cons y t ihl =>
    intro i v a h x
    cases i with
    | zero =>
      simp only [List.getElem?_cons_zero, Option.some.injEq] at h
      subst h
      simp only [List.set_cons_zero, List.count_cons]
      omega
    | succ i =>
      simp only [List.getElem?_cons_succ] at h
      simp only [List.set_cons_succ, List.count_cons]
      have := ihl i v a h x
      omega

theorem swapIdx_perm {α : Type} [DecidableEq α] (l : List α) (i j : Nat) :
    (swapIdx l i j).Perm l := by
  unfold swapIdx
  cases hi : l[i]? with
  | none => exact List.Perm.refl l
  | some a =>
    cases hj : l[j]? with
    | none => exact List.Perm.refl l
    | some b =>
      show ((l.set i b).set j a).Perm l
      have hjlen : j < l.length := by
        by_contra hlen
        rw [List.getElem?_eq_none (by omega)] at hj
        exact Option.noConfusion hj
      have hj2 : (l.set i b)[j]? = some b := by
        by_cases hij : i = j
        · subst hij
          rw [List.getElem?_set_self (by simpa using hjlen)]
        · rw [List.getElem?_set_ne hij]
          exact hj
      rw [List.perm_iff_count]
      intro x
      have h1 := count_set (l.set i b) j a b hj2 x
      have h2 := count_set l i b a hi x
      omega

/-- The `for i` loop of `shuffleArray`, from `i = len - 1` down to `1`;
`j = Math.floor(Math.random() * (i + 1))`. -/
def fyLoop {α : Type} : List α → Nat → RNG → List α × RNG
  | l, 0, σ => (l, σ)
  | l, i + 1, σ => fyLoop (swapIdx l (i + 1) (σ 0 % (i + 2))) i (tailRNG σ)

/-- `shuffleArray(array)`: copy the array (`[...array]`), Fisher–Yates-shuffle
the copy in place, and return it; the argument array is never written. -/
def shuffleArray {α : Type} (l : List α) (σ : RNG) : List α × RNG :=
  fyLoop l (l.length - 1) σ

theorem fyLoop_perm {α : Type} [DecidableEq α] :
    ∀ (i : Nat) (l : List α) (σ : RNG), ((fyLoop l i σ).1).Perm l := by
  intro i
  induction i with
  | zero => intro l σ; exact List.Perm.refl l
  | succ i ih =>
    intro l σ
    rw [fyLoop]
    exact (ih _ _).trans (swapIdx_perm l (i + 1) (σ 0 % (i + 2)))

theorem shuffleArray_perm {α : Type} [DecidableEq α] (l : List α) (σ : RNG) :
    ((shuffleArray l σ).1).Perm l :=
  fyLoop_perm (l.length - 1) l σ

theorem mem_shuffleArray {α : Type} [DecidableEq α] {l : List α} {σ : RNG} {x : α} :
    x ∈ (shuffleArray l σ).1 ↔ x ∈ l :=
  (shuffleArray_perm l σ).mem_iff

/-- At an empty cell of `g`, the value a completion holds there is a valid
placement for `g`. -/
theorem completion_placement {g S : Grid} {r c : Nat} (h : IsCompletion g S)
    (hr : r < 9) (hc : c < 9) (h0 : g r c = 0) :
    isValidPlacement g r c (S r c) = true := by
  obtain ⟨hcomp, hval, hext, _⟩ := h
  have hn0 : S r c ≠ 0 := hcomp r c hr hc
  rw [isValidPlacement_iff hr hc]
  refine ⟨?_, ?_, ?_⟩
  · intro c' hc' he
    have hnec : c' ≠ c := fun hcc => by rw [hcc] at he; omega
    have hS : S r c' = S r c := by rw [hext r c' hr hc' (by omega)]; exact he
    have := hval.2 (r, c) (r, c') hr hc hr hc'
      (by simp [Prod.ext_iff]; omega) (Or.inl rfl)
    unfold SepCells at this
    simp only at this
    rcases this with hx | hx | hx
    · exact hn0 hx
    · rw [hS] at hx; exact hn0 hx
    · rw [hS] at hx; exact hx rfl
  · intro r' hr' he
    have hner : r' ≠ r := fun hrr => by rw [hrr] at he; omega
    have hS : S r' c = S r c := by rw [hext r' c hr' hc (by omega)]; exact he
    have := hval.2 (r, c) (r', c) hr hc hr' hc
      (by simp [Prod.ext_iff]; omega) (Or.inr (Or.inl rfl))
    unfold SepCells at this
    simp only at this
    rcases this with hx | hx | hx
    · exact hn0 hx
    · rw [hS] at hx; exact hn0 hx
    · rw [hS] at hx; exact hx rfl
  · intro r' c' hr' hc' hbr hbc he
    have hne : (r, c) ≠ (r', c') := by
      intro hpq
      rw [Prod.mk.injEq] at hpq
      rw [← hpq.1, ← hpq.2] at he
      omega
    have hS : S r' c' = S r c := by rw [hext r' c' hr' hc' (by omega)]; exact he
    have := hval.2 (r, c) (r', c') hr hc hr' hc' hne
      (Or.inr (Or.inr ⟨hbr.symm, hbc.symm⟩))
    unfold SepCells at this
    simp only at this
    rcases this with hx | hx | hx
    · exact hn0 hx
    · rw [hS] at hx; exact hn0 hx
    · rw [hS] at hx; exact hx rfl

/-- A completion of `g` is still a completion after the cell `(r, c)` of `g`
is filled with the completion's own value there. -/
theorem isCompletion_setCell {g S : Grid} {r c : Nat} (h : IsCompletion g S)
    (hr : r < 9) (hc : c < 9) :
    IsCompletion (setCell g r c (S r c)) S := by
  obtain ⟨hcomp, hval, hext, hoff⟩ := h
  refine ⟨hcomp, hval, ?_, ?_⟩
  · intro r' c' hr' hc' hne0
    by_cases hrc : r' = r ∧ c' = c
    · obtain ⟨h1, h2⟩ := hrc
      subst h1; subst h2
      rw [setCell_same]
    · rw [setCell_ne g (S r c) hrc] at hne0 ⊢
      exact hext r' c' hr' hc' hne0
  · intro r' c' hoff'
    have hne : ¬(r' = r ∧ c' = c) := by
      rintro ⟨h1, h2⟩
      subst h1; subst h2
      exact hoff' ⟨hr, hc⟩
    rw [setCell_ne g (S r c) hne]
    exact hoff r' c' hoff'

/-! ### `fillGrid` and `generateSolution` -/

/-- `fillGrid(grid)`: backtracking fill trying a freshly shuffled candidate
order at each cell.  Success returns the completed grid; failure (`none`)
leaves the grid — restored by the undo writes — unchanged. -/
def fillFuel : Nat → Grid → RNG → Option Grid × RNG
  | 0, _, σ => (none, σ)
  | fuel + 1, g, σ =>
    match findEmptyCell g with
    | none => (some g, σ)
    | some (r, c) =>
      let p := shuffleArray nums1to9 σ
      fillLoop (fillFuel fuel) g r c p.1 p.2

theorem fillLoop_eq_some {go : Grid → RNG → Option Grid × RNG} {g : Grid} {r c : Nat} :
    ∀ {nums : List Nat} {σ σ' : RNG} {s : Grid},
      fillLoop go g r c nums σ = (some s, σ') →
      ∃ num ∈ nums, ∃ τ τ', isValidPlacement g r c num = true ∧
        go (setCell g r c num) τ = (some s, τ') := by
  intro nums
  induction nums with
  | nil => intro σ σ' s h; simp [fillLoop] at h
  | cons num rest ih =>
    intro σ σ' s h
    rw [fillLoop] at h
    by_cases hv : isValidPlacement g r c num = true
    · rw [if_pos hv] at h
      rcases hres : go (setCell g r c num) σ with ⟨o, σ2⟩
      rw [hres] at h
      cases o with
      | some s' =>
        simp only at h
        obtain ⟨h1, _⟩ := Prod.mk.injEq .. ▸ h
        exact ⟨num, List.mem_cons_self num rest, σ, σ2, hv, by rw [hres, h1]⟩
      | none =>
        simp only at h
        obtain ⟨n, hn, τ, τ', hv', hgo⟩ := ih h
        exact ⟨n, List.mem_cons_of_mem num hn, τ, τ', hv', hgo⟩
    · rw [if_neg hv] at h
      obtain ⟨n, hn, τ, τ', hv', hgo⟩ := ih h
      exact ⟨n, List.mem_cons_of_mem num hn, τ, τ', hv', hgo⟩

/-- The grid a successful `fillGrid` run produces is complete, agrees with
the non-zero and off-board cells of the start grid, and is valid whenever the
start grid is valid. -/
theorem fillFuel_some {fuel : Nat} :
    ∀ {g : Grid} {σ σ' : RNG} {s : Grid}, fillFuel fuel g σ = (some s, σ') →
      CompleteG s ∧
      (∀ r c, r < 9 → c < 9 → g r c ≠ 0 → s r c = g r c) ∧
      (∀ r c, ¬(r < 9 ∧ c < 9) → s r c = g r c) ∧
      (ValidG g → ValidG s) := by
  induction fuel with
  | zero => intro g σ σ' s h; simp [fillFuel] at h
  | succ fuel ih =>
    intro g σ σ' s h
    rw [fillFuel] at h
    cases hfind : findEmptyCell g with
    | none =>
      rw [hfind] at h
      simp only [Prod.mk.injEq, Option.some.injEq] at h
      obtain ⟨h1, _⟩ := h
      subst h1
      exact ⟨findEmptyCell_eq_none.1 hfind, fun _ _ _ _ _ => rfl,
        fun _ _ _ => rfl, id⟩
    | some p =>
      obtain ⟨r, c⟩ := p
      rw [hfind] at h
      obtain ⟨hr, hc, h0⟩ := findEmptyCell_eq_some hfind
      obtain ⟨num, hnum, τ, τ', hv, hgo⟩ := fillLoop_eq_some h
      obtain ⟨hn1, hn9⟩ := mem_nums1to9.1 (mem_shuffleArray.1 hnum)
      obtain ⟨ihc, ihext, ihoff, ihval⟩ := ih hgo
      refine ⟨ihc, ?_, ?_, ?_⟩
      · intro r' c' hr' hc' hne0
        have hne : ¬(r' = r ∧ c' = c) := by
          rintro ⟨h1, h2⟩
          subst h1; subst h2
          exact hne0 h0
        have := ihext r' c' hr' hc' (by rwa [setCell_ne g num hne])
        rwa [setCell_ne g num hne] at this
      · intro r' c' hoff
        have hne : ¬(r' = r ∧ c' = c) := by
          rintro ⟨h1, h2⟩
          subst h1; subst h2
          exact hoff ⟨hr, hc⟩
        have := ihoff r' c' hoff
        rwa [setCell_ne g num hne] at this
      · intro hval
        exact ihval (validG_setCell hval hr hc h0 hn1 hn9 hv)

theorem fillLoop_isSome {go : Grid → RNG → Option Grid × RNG} {g : Grid} {r c : Nat} :
    ∀ {nums : List Nat},
      (∃ num ∈ nums, isValidPlacement g r c num = true ∧
        ∀ τ, ((go (setCell g r c num) τ).1).isSome) →
      ∀ σ, ((fillLoop go g r c nums σ).1).isSome := by
  intro nums
  induction nums with
  | nil => rintro ⟨num, hmem, _⟩ σ; simp at hmem
  | cons num rest ih =>
    rintro ⟨w, hw, hwv, hws⟩ σ
    rw [fillLoop]
    by_cases hv : isValidPlacement g r c num = true
    · rw [if_pos hv]
      rcases hres : go (setCell g r c num) σ with ⟨o, σ2⟩
      cases o with
      | some s => simp
      | none =>
        simp only
        rcases List.mem_cons.1 hw with hwn | hwr
        · subst hwn
          have := hws σ
          rw [hres] at this
          simp at this
        · exact ih ⟨w, hwr, hwv, hws⟩ σ2
    · rw [if_neg hv]
      rcases List.mem_cons.1 hw with hwn | hwr
      · subst hwn
        exact absurd hwv hv
      · exact ih ⟨w, hwr, hwv, hws⟩ σ

/-- `fillGrid` succeeds, under any random stream, whenever a valid completion
of the start grid exists. -/
theorem fillFuel_isSome {fuel : Nat} :
    ∀ {g : Grid}, numZeros g < fuel → (∃ S, IsCompletion g S) →
      ∀ σ, ((fillFuel fuel g σ).1).isSome := by
  induction fuel with
  | zero => intro g h _ _; omega
  | succ fuel ih =>
    intro g hfuel hex σ
    obtain ⟨S, hS⟩ := hex
    rw [fillFuel]
    cases hfind : findEmptyCell g with
    | none => simp
    | some p =>
      obtain ⟨r, c⟩ := p
      obtain ⟨hr, hc, h0⟩ := findEmptyCell_eq_some hfind
      simp only
      apply fillLoop_isSome
      refine ⟨S r c, ?_, completion_placement hS hr hc h0, ?_⟩
      · exact mem_shuffleArray.2 (mem_nums1to9.2
          ⟨by have := hS.1 r c hr hc; omega, hS.2.1.1 r c hr hc⟩)
      · intro τ
        apply ih
        · have := numZeros_setCell_lt hr hc h0 (hS.1 r c hr hc)
          omega
        · exact ⟨S, isCompletion_setCell hS hr hc⟩

/-- The all-zeros grid `Array.from({length: 9}, () => Array(9).fill(0))`. -/
def emptyGrid : Grid := fun _ _ => 0

/-- View a concrete 9×9 list of rows as a grid (0 outside the board). -/
def gridOfList (L : List (List Nat)) : Grid :=
  fun r c => ((L.getD r []).getD c 0)

theorem validG_emptyGrid : ValidG emptyGrid :=
  ⟨fun _ _ _ _ => by simp [emptyGrid], fun _ _ _ _ _ _ _ _ => Or.inl rfl⟩

theorem gridOfList_offboard {L : List (List Nat)} (hL : L.length ≤ 9)
    (hrow : ∀ row ∈ L, row.length ≤ 9) :
    ∀ r c, ¬(r < 9 ∧ c < 9) → gridOfList L r c = 0 := by
  intro r c h
  unfold gridOfList
  by_cases hr : r < 9
  · have hc : 9 ≤ c := by
      by_contra hcc
      exact h ⟨hr, by omega⟩
    have hlen : (L.getD r []).length ≤ 9 := by
      by_cases hrl : r < L.length
      · rw [List.getD_eq_getElem L [] hrl]
        exact hrow _ (List.getElem_mem hrl)
      · rw [List.getD_eq_default L [] (by omega)]
        simp
    exact List.getD_eq_default (L.getD r []) 0 (by omega)
  · rw [List.getD_eq_default L [] (by omega)]
    simp

/-- A complete valid grid (used as an explicit completion witness). -/
def solGridA : List (List Nat) :=
  [[5,3,4,6,7,8,9,1,2],[6,7,2,1,9,5,3,4,8],[1,9,8,3,4,2,5,6,7],
   [8,5,9,7,6,1,4,2,3],[4,2,6,8,5,3,7,9,1],[7,1,3,9,2,4,8,5,6],
   [9,6,1,5,3,7,2,8,4],[2,8,7,4,1,9,6,3,5],[3,4,5,2,8,6,1,7,9]]

/-- A second complete valid grid, differing from `solGridA` at `(0, 0)`. -/
def solGridB : List (List Nat) :=
  [[1,2,3,4,5,6,7,8,9],[4,5,6,7,8,9,1,2,3],[7,8,9,1,2,3,4,5,6],
   [2,3,4,5,6,7,8,9,1],[5,6,7,8,9,1,2,3,4],[8,9,1,2,3,4,5,6,7],
   [3,4,5,6,7,8,9,1,2],[6,7,8,9,1,2,3,4,5],[9,1,2,3,4,5,6,7,8]]

theorem solGridA_valid : isValidGrid (gridOfList solGridA) true = true := by decide

theorem solGridB_valid : isValidGrid (gridOfList solGridB) true = true := by decide

theorem isCompletion_emptyGrid_of_valid {L : List (List Nat)}
    (hv : isValidGrid (gridOfList L) true = true) (hL : L.length ≤ 9)
    (hrow : ∀ row ∈ L, row.length ≤ 9) :
    IsCompletion emptyGrid (gridOfList L) := by
  obtain ⟨hcomp, hval⟩ := (isValidGrid_true_iff _).1 hv
  refine ⟨hcomp, hval, ?_, ?_⟩
  · intro r c _ _ h
    exact absurd rfl h
  · intro r c h
    rw [gridOfList_offboard hL hrow r c h]
    rfl

theorem emptyGrid_has_completion : ∃ S, IsCompletion emptyGrid S :=
  ⟨gridOfList solGridA, isCompletion_emptyGrid_of_valid solGridA_valid
    (by decide) (by decide)⟩

/-- The attempt loop of `generateSolution(maxAttempts)`: build an empty grid,
run `fillGrid`, return the grid if `isValidGrid` accepts it, retry otherwise.
The loop is parameterized by the attempt (always `fillGrid` on the empty
grid).  At fuel 0 the source retries unboundedly via
`generateSolution(maxAttempts)`; the model returns the final attempt's grid
there, which is provably the same behaviour: `genSolLoop_spec` shows every
attempt validates, so the retry branches are dead code. -/
def genSolLoop (attempt : RNG → Option Grid × RNG) : Nat → RNG → Grid × RNG
  | 0, σ =>
    match attempt σ with
    | (og, σ') => (og.getD emptyGrid, σ')
  | f + 1, σ =>
    match attempt σ with
    | (some g, σ') => if isValidGrid g true then (g, σ') else genSolLoop attempt f σ'
    | (none, σ') => genSolLoop attempt f σ'

/-- `generateSolution(maxAttempts)`. -/
def generateSolution (maxAttempts : Nat) (σ : RNG) : Grid × RNG :=
  genSolLoop (fun τ => fillFuel 82 emptyGrid τ) maxAttempts σ

/-- Every attempt of `generateSolution` fills the empty grid into a complete
valid solution, so the function always returns one. -/
theorem genSolLoop_spec (f : Nat) (σ : RNG) :
    CompleteG (genSolLoop (fun τ => fillFuel 82 emptyGrid τ) f σ).1 ∧
    ValidG (genSolLoop (fun τ => fillFuel 82 emptyGrid τ) f σ).1 := by
  have hfill : ∀ τ : RNG, ∃ s σ', fillFuel 82 emptyGrid τ = (some s, σ') ∧
      CompleteG s ∧ ValidG s := by
    intro τ
    have hsome : ((fillFuel 82 emptyGrid τ).1).isSome :=
      fillFuel_isSome (by have := numZeros_le emptyGrid; omega)
        emptyGrid_has_completion τ
    rcases hres : fillFuel 82 emptyGrid τ with ⟨o, σ'⟩
    rw [hres] at hsome
    cases o with
    | none => simp at hsome
    | some s =>
      obtain ⟨hc, _, _, hv⟩ := fillFuel_some hres
      exact ⟨s, σ', rfl, hc, hv validG_emptyGrid⟩
  induction f with
  | zero =>
    obtain ⟨s, σ', hres, hc, hv⟩ := hfill σ
    rw [genSolLoop]
    rw [hres]
    exact ⟨hc, hv⟩
  | succ f ih =>
    obtain ⟨s, σ', hres, hc, hv⟩ := hfill σ
    rw [genSolLoop]
    rw [hres]
    show CompleteG (if isValidGrid s true = true then (s, σ')
        else genSolLoop (fun τ => fillFuel 82 emptyGrid τ) f σ').1 ∧
      ValidG (if isValidGrid s true = true then (s, σ')
        else genSolLoop (fun τ => fillFuel 82 emptyGrid τ) f σ').1
    rw [if_pos ((isValidGrid_true_iff s).2 ⟨hc, hv⟩)]
    exact ⟨hc, hv⟩

theorem generateSolution_spec (maxAttempts : Nat) (σ : RNG) :
    CompleteG (generateSolution maxAttempts σ).1 ∧
    ValidG (generateSolution maxAttempts σ).1 :=
  genSolLoop_spec maxAttempts σ

/- `fillFuel` and `shuffleArray` applied to a symbolic random stream produce
large stuck terms; they are made irreducible here (all lemmas above reason
through their equations) so that later definitional unfolding does not try to
evaluate them. -/
attribute [irreducible] fillFuel
attribute [irreducible] shuffleArray

/-! ### `generatePuzzle` -/

/-- `Math.floor(r / 3) * 3 + Math.floor(c / 3)`: index of the box of a cell. -/
def boxIndex (r c : Nat) : Nat := r / 3 * 3 + c / 3

/-- The positions pushed into `boxes[b]`: the row-major scan
`for r … for c … boxes[boxIndex].push([r, c])` fills each box's list with its
cells in row-major order, i.e. the row-major position list filtered to the
box. -/
def boxPositions (b : Nat) : List (Nat × Nat) :=
  allPositions.filter fun p => boxIndex p.1 p.2 == b

/-- The difficulty table `clueRanges`, with the `|| clueRanges.easy`
fallback for unknown difficulty strings. -/
def clueRange (difficulty : String) : Nat × Nat :=
  if difficulty == "easy" then (45, 50)
  else if difficulty == "medium" then (28, 32)
  else if difficulty == "hard" then (22, 26)
  else if difficulty == "superhard" then (17, 20)
  else (45, 50)

/-- `boxes.forEach(box => this.shuffleArray(box))`: `shuffleArray` copies its
argument (`const shuffled = [...array]`) and shuffles only the copy, so this
call mutates nothing — the shuffled copies are discarded and only the random
stream advances (by the draws each call consumes). -/
def discardShuffles : List (List (Nat × Nat)) → RNG → RNG
  | [], σ => σ
  | b :: bs, σ => discardShuffles bs (shuffleArray b σ).2

/-- The balanced removal queue: `for i in 0…8, for boxIndex of boxOrder, if
i < boxes[boxIndex].length then push boxes[boxIndex][i]`. -/
def buildQueue (boxes : Nat → List (Nat × Nat)) (boxOrder : List Nat) :
    List (Nat × Nat) :=
  (List.range 9).flatMap fun i => boxOrder.filterMap fun b => (boxes b).get? i

/-- The removal loop of `generatePuzzle`: walk the queue, zero each cell, and
for hard difficulties restore the backup and skip when the uniqueness check
(`uniq`, always `hasUniqueSolution`) fails; stop once enough cells are
removed.  `hard` is `difficulty === 'hard' || difficulty === 'superhard'`. -/
def removeLoop (hard : Bool) (uniq : Grid → Bool) :
    List (Nat × Nat) → Grid → Nat → Nat → Grid
  | [], puzzle, _, _ => puzzle
  | (r, c) :: rest, puzzle, removed, cellsToRemove =>
    if cellsToRemove ≤ removed then puzzle
    else
      let backup := puzzle r c
      let puzzle2 := setCell puzzle r c 0
      if hard && !(uniq puzzle2) then
        removeLoop hard uniq rest (setCell puzzle2 r c backup) removed cellsToRemove
      else
        removeLoop hard uniq rest puzzle2 (removed + 1) cellsToRemove

/-- One attempt of `generatePuzzle(difficulty)`: generate a solution, copy it,
pick the clue target, build the box-balanced removal queue, and run the
removal loop. -/
def generatePuzzleAttempt (difficulty : String) (σ : RNG) : (Grid × Grid) × RNG :=
  let ps := generateSolution 10 σ
  let solution := ps.1
  let range := clueRange difficulty
  let t := randBelow ps.2 (range.2 - range.1 + 1)
  let targetClues := t.1 + range.1
  let cellsToRemove := 81 - targetClues
  let σ1 := discardShuffles ((List.range 9).map boxPositions) t.2
  let bo := shuffleArray (List.range 9) σ1
  let positions := buildQueue boxPositions bo.1
  let final := removeLoop (difficulty == "hard" || difficulty == "superhard")
      hasUniqueSolution positions solution 0 cellsToRemove
  ((final, solution), bo.2)

/-- The attempt loop of `generatePuzzle(difficulty, maxAttempts)`: return the
attempt when `isValidGrid(puzzle, false)` accepts it, retry otherwise.  At
fuel 0 the source retries unboundedly via recursion; the model returns the
final attempt there, which is provably the same behaviour: every attempt's
puzzle validates (`generatePuzzle_isValid`), so the retries are dead code. -/
def genPuzLoop (attempt : RNG → (Grid × Grid) × RNG) :
    Nat → RNG → (Grid × Grid) × RNG
  | 0, σ => attempt σ
  | f + 1, σ =>
    match attempt σ with
    | (ps, σ') => if isValidGrid ps.1 false then (ps, σ') else genPuzLoop attempt f σ'

/-- `generatePuzzle(difficulty, maxAttempts)`. -/
def generatePuzzle (difficulty : String) (maxAttempts : Nat) (σ : RNG) :
    (Grid × Grid) × RNG :=
  genPuzLoop (generatePuzzleAttempt difficulty) maxAttempts σ

/-- Whatever attempt the retry loop of `generatePuzzle` returns, it is the
output of `generatePuzzleAttempt` on some stream. -/
theorem genPuzLoop_exists (attempt : RNG → (Grid × Grid) × RNG) :
    ∀ (f : Nat) (σ : RNG), ∃ τ, genPuzLoop attempt f σ = attempt τ := by
  intro f
  induction f with
  | zero => intro σ; exact ⟨σ, rfl⟩
  | succ f ih =>
    intro σ
    rw [genPuzLoop]
    rcases hres : attempt σ with ⟨ps, σ'⟩
    show (∃ τ, (if isValidGrid ps.1 false = true then (ps, σ')
      else genPuzLoop attempt f σ') = attempt τ)
    by_cases hv : isValidGrid ps.1 false = true
    · rw [if_pos hv]
      exact ⟨σ, hres.symm⟩
    · rw [if_neg hv]
      exact ih σ'

/-- Each cell of the removal loop's output is either cleared or untouched. -/
theorem removeLoop_cells {hard : Bool} {uniq : Grid → Bool} :
    ∀ {positions : List (Nat × Nat)} {puzzle : Grid} {removed ctr r c : Nat},
      removeLoop hard uniq positions puzzle removed ctr r c = 0 ∨
      removeLoop hard uniq positions puzzle removed ctr r c = puzzle r c := by
  intro positions
  induction positions with
  | nil => intro puzzle removed ctr r c; exact Or.inr rfl
  | cons p rest ih =>
    intro puzzle removed ctr r c
    obtain ⟨pr, pc⟩ := p
    rw [removeLoop]
    by_cases hbreak : ctr ≤ removed
    · rw [if_pos hbreak]
      exact Or.inr rfl
    · rw [if_neg hbreak]
      by_cases hskip : (hard && !(uniq (setCell puzzle pr pc 0))) = true
      · rw [if_pos hskip]
        rw [setCell_backup]
        exact ih
      · rw [if_neg hskip]
        rcases @ih (setCell puzzle pr pc 0) (removed + 1) ctr r c with h | h
        · exact Or.inl h
        · rw [h]
          by_cases hrc : r = pr ∧ c = pc
        
          · rw [show setCell puzzle pr pc 0 r c = 0 by simp [setCell, hrc]]
            exact Or.inl rfl
          · rw [setCell_ne puzzle 0 hrc]
            exact Or.inr rfl

/-- On hard difficulties the removal loop preserves the uniqueness check it
itself performs. -/
theorem removeLoop_uniq {uniq : Grid → Bool} :
    ∀ {positions : List (Nat × Nat)} {puzzle : Grid} {removed ctr : Nat},
      uniq puzzle = true →
      uniq (removeLoop true uniq positions puzzle removed ctr) = true := by
  intro positions
  induction positions with
  | nil => intro puzzle removed ctr h; exact h
  | cons p rest ih =>
    intro puzzle removed ctr h
    obtain ⟨pr, pc⟩ := p
    rw [removeLoop]
    by_cases hbreak : ctr ≤ removed
    · rw [if_pos hbreak]
      exact h
    · rw [if_neg hbreak]
      by_cases hu : uniq (setCell puzzle pr pc 0) = true
      · rw [if_neg (by simp [hu])]
        exact ih hu
      · rw [if_pos (by simp [Bool.eq_false_iff.2 hu])]
        rw [setCell_backup]
        exact ih h

/-- A complete grid is the single leaf of its own search tree. -/
theorem completionsFuel_complete (fuel : Nat) {s : Grid} (h : CompleteG s) :
    completionsFuel (fuel + 1) s = [s] := by
  rw [completionsFuel]
  rw [findEmptyCell_eq_none.2 h]

/-- `countSolutions` on a complete grid returns `cnt + 1` capped at 2; with
the default counter it returns 1. -/
theorem countSolutions_complete {s : Grid} (h : CompleteG s) :
    countSolutions s 0 = 1 := by
  unfold countSolutions
  rw [countSolutionsAux_eq (by have := numZeros_le s; omega) (by omega)]
  have h82 : completionsFuel 82 s = [s] := by
    have := completionsFuel_complete 81 h
    norm_num at this
    exact this
  rw [h82]
  rfl

theorem hasUniqueSolution_iff {p : Grid} :
    hasUniqueSolution p = true ↔ countSolutions p 0 = 1 := by
  unfold hasUniqueSolution
  simp

/-- The shape of one generation attempt: the puzzle is the removal loop run
on the freshly generated solution, which is returned unchanged as the
solution field. -/
theorem generatePuzzleAttempt_shape (d : String) (σ : RNG) :
    ∃ positions ctr,
      (generatePuzzleAttempt d σ).1.1 =
        removeLoop (d == "hard" || d == "superhard") hasUniqueSolution positions
          (generateSolution 10 σ).1 0 ctr ∧
      (generatePuzzleAttempt d σ).1.2 = (generateSolution 10 σ).1 :=
  ⟨_, _, rfl, rfl⟩

/-- Every cell of a generated puzzle is empty or equal to the corresponding
solution cell. -/
theorem generatePuzzle_cells (d : String) (mA : Nat) (σ : RNG) (r c : Nat) :
    (generatePuzzle d mA σ).1.1 r c = 0 ∨
    (generatePuzzle d mA σ).1.1 r c = (generatePuzzle d mA σ).1.2 r c := by
  obtain ⟨τ, hτ⟩ := genPuzLoop_exists (generatePuzzleAttempt d) mA σ
  unfold generatePuzzle
  rw [hτ]
  obtain ⟨pos, ctr, h1, h2⟩ := generatePuzzleAttempt_shape d τ
  rw [h1, h2]
  exact removeLoop_cells

/-- The solution field of a generated puzzle is a complete valid grid. -/
theorem generatePuzzle_solution_spec (d : String) (mA : Nat) (σ : RNG) :
    CompleteG (generatePuzzle d mA σ).1.2 ∧ ValidG (generatePuzzle d mA σ).1.2 := by
  obtain ⟨τ, hτ⟩ := genPuzLoop_exists (generatePuzzleAttempt d) mA σ
  unfold generatePuzzle
  rw [hτ]
  obtain ⟨pos, ctr, h1, h2⟩ := generatePuzzleAttempt_shape d τ
  rw [h2]
  exact generateSolution_spec 10 τ

/-- Every generated puzzle is a valid partial grid. -/
theorem generatePuzzle_validG (d : String) (mA : Nat) (σ : RNG) :
    ValidG (generatePuzzle d mA σ).1.1 := by
  have hsol := generatePuzzle_solution_spec d mA σ
  exact validG_of_subgrid hsol.2 fun r c _ _ => generatePuzzle_cells d mA σ r c

/-- On hard difficulties every generated puzzle passes the engine's own
uniqueness check. -/
theorem generatePuzzle_uniq {d : String}
    (hd : (d == "hard" || d == "superhard") = true) (mA : Nat) (σ : RNG) :
    countSolutions (generatePuzzle d mA σ).1.1 0 = 1 := by
  obtain ⟨τ, hτ⟩ := genPuzLoop_exists (generatePuzzleAttempt d) mA σ
  unfold generatePuzzle
  rw [hτ]
  obtain ⟨pos, ctr, h1, h2⟩ := generatePuzzleAttempt_shape d τ
  rw [h1, hd]
  have hinit : hasUniqueSolution (generateSolution 10 τ).1 = true :=
    hasUniqueSolution_iff.2 (countSolutions_complete (generateSolution_spec 10 τ).1)
  exact hasUniqueSolution_iff.1 (removeLoop_uniq hinit)

/-! ### Solver and counter versus valid completions -/

theorem numZeros_lt_82 (g : Grid) : numZeros g < 82 := by
  have := numZeros_le g
  omega

theorem solve_eq_head (g : Grid) : solve g = (completionsFuel 82 g).head? :=
  solveFuel_eq_head

theorem countSolutions_min (g : Grid) :
    countSolutions g 0 = min (completionsFuel 82 g).length 2 := by
  unfold countSolutions
  rw [countSolutionsAux_eq (numZeros_lt_82 g) (by omega)]
  simp

theorem mem_completions_iff {g S : Grid} (hval : ValidG g) :
    S ∈ completionsFuel 82 g ↔ IsCompletion g S := by
  constructor
  · intro h
    obtain ⟨hc, hext, hoff, hv⟩ := completionsFuel_mem h
    exact ⟨hc, hv hval, hext, hoff⟩
  · intro h
    exact isCompletion_mem_completionsFuel (numZeros_lt_82 g) h

/-- `countSolutions` (with the default counter) always returns 0, 1 or 2. -/
theorem countSolutions_range (g : Grid) :
    countSolutions g 0 = 0 ∨ countSolutions g 0 = 1 ∨ countSolutions g 0 = 2 := by
  rw [countSolutions_min]
  omega

theorem two_le_length_of_two_mem {α : Type} {l : List α} {a b : α}
    (ha : a ∈ l) (hb : b ∈ l) (hne : a ≠ b) : 2 ≤ l.length := by
  cases l with
  | nil => simp at ha
  | cons x t =>
    cases t with
    | nil =>
      simp only [List.mem_singleton] at ha hb
      exact absurd (ha.trans hb.symm) hne
    | cons y u => simp

theorem exists_two_mem_of_nodup {α : Type} {l : List α} (hnd : l.Nodup)
    (h : 2 ≤ l.length) : ∃ a b, a ∈ l ∧ b ∈ l ∧ a ≠ b := by
  cases l with
  | nil => simp at h
  | cons x t =>
    cases t with
    | nil => simp at h
    | cons y u =>
      refine ⟨x, y, by simp, by simp, ?_⟩
      have := (List.nodup_cons.1 hnd).1
      intro he
      exact this (he ▸ List.mem_cons_self y u)

theorem countSolutions_eq_zero_iff {g : Grid} (hval : ValidG g) :
    countSolutions g 0 = 0 ↔ ¬∃ S, IsCompletion g S := by
  rw [countSolutions_min]
  constructor
  · intro h
    have hlen : (completionsFuel 82 g).length = 0 := by omega
    rintro ⟨S, hS⟩
    have := (mem_completions_iff hval).2 hS
    rw [List.length_eq_zero] at hlen
    rw [hlen] at this
    simp at this
  · intro h
    rcases hlist : completionsFuel 82 g with _ | ⟨S, rest⟩
    · simp
    · exfalso
      refine h ⟨S, (mem_completions_iff hval).1 ?_⟩
      rw [hlist]
      simp

theorem countSolutions_eq_one_iff {g : Grid} (hval : ValidG g) :
    countSolutions g 0 = 1 ↔ ∃! S, IsCompletion g S := by
  rw [countSolutions_min]
  constructor
  · intro h
    have hlen : (completionsFuel 82 g).length = 1 := by omega
    obtain ⟨S, hS⟩ := List.length_eq_one.1 hlen
    refine ⟨S, (mem_completions_iff hval).1 (by rw [hS]; simp), ?_⟩
    intro S' hS'
    have := (mem_completions_iff hval).2 hS'
    rw [hS] at this
    simpa using this
  · rintro ⟨S, hS, huniq⟩
    have hmem := (mem_completions_iff hval).2 hS
    have hle : (completionsFuel 82 g).length ≤ 1 := by
      by_contra hgt
      obtain ⟨a, b, ha, hb, hne⟩ := exists_two_mem_of_nodup
        (@completionsFuel_nodup 82 g) (by omega)
      have ha' := huniq a ((mem_completions_iff hval).1 ha)
      have hb' := huniq b ((mem_completions_iff hval).1 hb)
      exact hne (ha'.trans hb'.symm)
    have hge : 1 ≤ (completionsFuel 82 g).length := by
      rcases hlist : completionsFuel 82 g with _ | ⟨x, rest⟩
      · rw [hlist] at hmem; simp at hmem
      · simp
    omega

theorem countSolutions_eq_two_iff {g : Grid} (hval : ValidG g) :
    countSolutions g 0 = 2 ↔
      ∃ S₁ S₂, IsCompletion g S₁ ∧ IsCompletion g S₂ ∧ S₁ ≠ S₂ := by
  rw [countSolutions_min]
  constructor
  · intro h
    have hlen : 2 ≤ (completionsFuel 82 g).length := by omega
    obtain ⟨a, b, ha, hb, hne⟩ := exists_two_mem_of_nodup
      (@completionsFuel_nodup 82 g) hlen
    exact ⟨a, b, (mem_completions_iff hval).1 ha, (mem_completions_iff hval).1 hb, hne⟩
  · rintro ⟨S₁, S₂, h1, h2, hne⟩
    have := two_le_length_of_two_mem ((mem_completions_iff hval).2 h1)
      ((mem_completions_iff hval).2 h2) hne
    omega

theorem solve_eq_none_iff {g : Grid} (hval : ValidG g) :
    solve g = none ↔ ¬∃ S, IsCompletion g S := by
  rw [solve_eq_head, List.head?_eq_none_iff]
  constructor
  · intro h
    rintro ⟨S, hS⟩
    have := (mem_completions_iff hval).2 hS
    rw [h] at this
    simp at this
  · intro h
    rcases hlist : completionsFuel 82 g with _ | ⟨S, rest⟩
    · rfl
    · exfalso
      refine h ⟨S, (mem_completions_iff hval).1 ?_⟩
      rw [hlist]
      simp

theorem solve_eq_some {g s : Grid} (hval : ValidG g) (h : solve g = some s) :
    IsCompletion g s := by
  rw [solve_eq_head] at h
  have hmem : s ∈ completionsFuel 82 g := by
    rcases hlist : completionsFuel 82 g with _ | ⟨x, rest⟩
    · rw [hlist] at h; simp at h
    · rw [hlist] at h
      simp only [List.head?_cons, Option.some.injEq] at h
      rw [← h]
      exact List.mem_cons_self x rest
  exact (mem_completions_iff hval).1 hmem

/-! ### Hint engine (`js/hints.js`) -/

/-- The hint record `{row, col, number, technique, explanation}`. -/
structure Hint where
  row : Nat
  col : Nat
  number : Nat
  technique : String
  explanation : String

/-- The game-state snapshot `{puzzle, userEntries, official, solution}`
consumed by the hint engine.  `official` marks the locked clue cells. -/
structure GameState where
  puzzle : Grid
  userEntries : Grid
  official : Nat → Nat → Bool
  solution : Grid

/-- `buildCurrentGrid(state)`: official cells show their puzzle value,
non-official cells the user entry, otherwise 0. -/
def buildCurrentGrid (st : GameState) : Grid := fun r c =>
  if st.official r c then st.puzzle r c
  else if st.userEntries r c ≠ 0 then st.userEntries r c
  else 0

/-- `getCandidatesForCell(grid, row, col)`: start from `{1..9}` and delete
every value seen in the row, the column and the box.  A value `1..9` survives
the deletions exactly when it occurs nowhere in the three regions, which is
the test `isValidPlacement` performs; the JS `Set` iterates in insertion
order `1..9`, i.e. ascending, so the set is the ascending filtered list. -/
def getCandidatesForCell (grid : Grid) (row col : Nat) : List Nat :=
  (List.range' 1 9).filter fun n => isValidPlacement grid row col n

/-- `calculateCandidates(grid)`: empty set on filled cells, otherwise the
cell's candidates. -/
def calculateCandidates (grid : Grid) : Nat → Nat → List Nat := fun row col =>
  if grid row col ≠ 0 then [] else getCandidatesForCell grid row col

/-- JS `Set.add` over a scan of values, skipping zeros: insertion-ordered
deduplicated list of the non-zero values. -/
def scanVals (vals : List Nat) : List Nat :=
  vals.foldl (fun acc v =>
    if v ≠ 0 then (if acc.contains v then acc else acc ++ [v]) else acc) []

/-- `getEliminationDetails(grid, row, col)`: the sets of non-zero values seen
in the row, the column and the box of the cell. -/
def getEliminationDetails (grid : Grid) (row col : Nat) :
    List Nat × List Nat × List Nat :=
  (scanVals ((List.range 9).map fun c => grid row c),
   scanVals ((List.range 9).map fun r => grid r col),
   scanVals ((List.range 3).flatMap fun dr =>
     (List.range 3).map fun dc => grid (row / 3 * 3 + dr) (col / 3 * 3 + dc)))

/-- `[...set].sort((a,b) => a-b).join(', ')`. -/
def joinSorted (l : List Nat) : String :=
  String.intercalate ", " ((l.mergeSort fun a b => decide (a ≤ b)).map toString)

/-- Explanation text of `buildNakedSingleExplanation`. -/
def buildNakedSingleExplanation (row col number : Nat)
    (elim : List Nat × List Nat × List Nat) : String :=
  let rowNum := row + 1
  let colNum := col + 1
  s!"This cell at Row {rowNum}, Column {colNum} can only be <strong>{number}</strong>.\n\n" ++
  "<strong>Why?</strong> Looking at this cell:\n" ++
  (if elim.1.length > 0 then
    s!"• Row {rowNum} already has: " ++ joinSorted elim.1 ++ "\n" else "") ++
  (if elim.2.1.length > 0 then
    s!"• Column {colNum} already has: " ++ joinSorted elim.2.1 ++ "\n" else "") ++
  (if elim.2.2.length > 0 then
    "• The 3×3 box already has: " ++ joinSorted elim.2.2 ++ "\n" else "") ++
  s!"\nAfter eliminating all these numbers, only <strong>{number}</strong> remains as a possibility!"

/-- Explanation text of `buildHiddenSingleRowExplanation`. -/
def buildHiddenSingleRowExplanation (row col number : Nat)
    (cand : Nat → Nat → List Nat) : String :=
  let rowNum := row + 1
  let colNum := col + 1
  s!"The number <strong>{number}</strong> must go in Row {rowNum}, Column {colNum}.\n\n" ++
  s!"<strong>Why?</strong> In Row {rowNum}, the number {number} must appear somewhere.\n\n" ++
  "Looking at each empty cell in this row:\n" ++
  String.join ((List.range 9).map fun c =>
    if (cand row c).length > 0 then
      if c == col then s!"• Column {c + 1}: {number} is possible ✓\n"
      else if !((cand row c).contains number) then
        s!"• Column {c + 1}: {number} is blocked\n"
      else ""
    else "") ++
  s!"\nThis is the only cell in Row {rowNum} where <strong>{number}</strong> can go!"

/-- Explanation text of `buildHiddenSingleColExplanation`. -/
def buildHiddenSingleColExplanation (row col number : Nat)
    (cand : Nat → Nat → List Nat) : String :=
  let rowNum := row + 1
  let colNum := col + 1
  s!"The number <strong>{number}</strong> must go in Row {rowNum}, Column {colNum}.\n\n" ++
  s!"<strong>Why?</strong> In Column {colNum}, the number {number} must appear somewhere.\n\n" ++
  "Looking at each empty cell in this column:\n" ++
  String.join ((List.range 9).map fun r =>
    if (cand r col).length > 0 then
      if r == row then s!"• Row {r + 1}: {number} is possible ✓\n"
      else if !((cand r col).contains number) then
        s!"• Row {r + 1}: {number} is blocked\n"
      else ""
    else "") ++
  s!"\nThis is the only cell in Column {colNum} where <strong>{number}</strong> can go!"

/-- Explanation text of `buildHiddenSingleBoxExplanation`. -/
def buildHiddenSingleBoxExplanation (row col number : Nat)
    (cand : Nat → Nat → List Nat) (boxStartRow boxStartCol : Nat) : String :=
  let rowNum := row + 1
  let colNum := col + 1
  s!"The number <strong>{number}</strong> must go in Row {rowNum}, Column {colNum}.\n\n" ++
  s!"<strong>Why?</strong> In this 3×3 box, the number {number} must appear somewhere.\n\n" ++
  "Looking at each empty cell in this box:\n" ++
  String.join ((boxCells boxStartRow boxStartCol).map fun p =>
    if (cand p.1 p.2).length > 0 then
      if p.1 == row && p.2 == col then
        s!"• Row {p.1 + 1}, Col {p.2 + 1}: {number} is possible ✓\n"
      else if !((cand p.1 p.2).contains number) then
        s!"• Row {p.1 + 1}, Col {p.2 + 1}: {number} is blocked\n"
      else ""
    else "") ++
  s!"\nThis is the only cell in the box where <strong>{number}</strong> can go!"

/-- Explanation text of `buildFallbackExplanation`. -/
def buildFallbackExplanation (row col number : Nat)
    (elim : List Nat × List Nat × List Nat) : String :=
  let rowNum := row + 1
  let colNum := col + 1
  s!"The answer for Row {rowNum}, Column {colNum} is <strong>{number}</strong>.\n\n" ++
  "<strong>Hint:</strong> This requires more advanced techniques, but here's what we know:\n\n" ++
  (if elim.1.length > 0 then
    s!"• Row {rowNum} has: " ++ joinSorted elim.1 ++ "\n" else "") ++
  (if elim.2.1.length > 0 then
    s!"• Column {colNum} has: " ++ joinSorted elim.2.1 ++ "\n" else "") ++
  (if elim.2.2.length > 0 then
    "• The 3×3 box has: " ++ joinSorted elim.2.2 ++ "\n" else "") ++
  "\nThe remaining numbers must be determined through chain logic or other advanced techniques."

/-- `findNakedSingle(grid, candidates, state)`: the first cell, in row-major
order, that is empty and has exactly one candidate, skipped unless the
candidate agrees with the known solution. -/
def findNakedSingle (grid : Grid) (cand : Nat → Nat → List Nat)
    (st : GameState) : Option Hint :=
  allPositions.findSome? fun p =>
    if grid p.1 p.2 == 0 && (cand p.1 p.2).length == 1 then
      if st.solution p.1 p.2 != (cand p.1 p.2).headD 0 then none
      else some ⟨p.1, p.2, (cand p.1 p.2).headD 0, "Naked Single",
        buildNakedSingleExplanation p.1 p.2 ((cand p.1 p.2).headD 0)
          (getEliminationDetails grid p.1 p.2)⟩
    else none

/-- `findHiddenSingleInRow(grid, candidates, state)`: for each row and each
value not yet in the row, the unique cell of the row that admits the value,
skipped when it is also a naked single or disagrees with the solution. -/
def findHiddenSingleInRow (grid : Grid) (cand : Nat → Nat → List Nat)
    (st : GameState) : Option Hint :=
  ((List.range 9).flatMap fun row =>
      (List.range' 1 9).map fun num => (row, num)).findSome? fun q =>
    if (List.range 9).any fun c => grid q.1 c == q.2 then none
    else
      match (List.range 9).filter fun col => (cand q.1 col).contains q.2 with
      | [col] =>
        if (cand q.1 col).length == 1 then none
        else if st.solution q.1 col != q.2 then none
        else some ⟨q.1, col, q.2, "Hidden Single (Row)",
          buildHiddenSingleRowExplanation q.1 col q.2 cand⟩
      | _ => none

/-- `findHiddenSingleInColumn(grid, candidates, state)`. -/
def findHiddenSingleInColumn (grid : Grid) (cand : Nat → Nat → List Nat)
    (st : GameState) : Option Hint :=
  ((List.range 9).flatMap fun col =>
      (List.range' 1 9).map fun num => (col, num)).findSome? fun q =>
    if (List.range 9).any fun r => grid r q.1 == q.2 then none
    else
      match (List.range 9).filter fun row => (cand row q.1).contains q.2 with
      | [row] =>
        if (cand row q.1).length == 1 then none
        else if st.solution row q.1 != q.2 then none
        else some ⟨row, q.1, q.2, "Hidden Single (Column)",
          buildHiddenSingleColExplanation row q.1 q.2 cand⟩
      | _ => none

/-- `findHiddenSingleInBox(grid, candidates, state)`. -/
def findHiddenSingleInBox (grid : Grid) (cand : Nat → Nat → List Nat)
    (st : GameState) : Option Hint :=
  ((List.range 3).flatMap fun boxRow =>
      (List.range 3).flatMap fun boxCol =>
        (List.range' 1 9).map fun num => (boxRow, boxCol, num)).findSome? fun q =>
    if (boxCells (q.1 * 3) (q.2.1 * 3)).any fun p => grid p.1 p.2 == q.2.2 then none
    else
      match (boxCells (q.1 * 3) (q.2.1 * 3)).filter fun p =>
          (cand p.1 p.2).contains q.2.2 with
      | [p] =>
        if (cand p.1 p.2).length == 1 then none
        else if st.solution p.1 p.2 != q.2.2 then none
        else some ⟨p.1, p.2, q.2.2, "Hidden Single (Box)",
          buildHiddenSingleBoxExplanation p.1 p.2 q.2.2 cand (q.1 * 3) (q.2.1 * 3)⟩
      | _ => none

/-- `findFallbackHint(state)`: reveal the solution value of the first cell
that is neither official nor filled by the user. -/
def findFallbackHint (st : GameState) : Option Hint :=
  allPositions.findSome? fun p =>
    if !(st.official p.1 p.2) && st.userEntries p.1 p.2 == 0 then
      some ⟨p.1, p.2, st.solution p.1 p.2, "Process of Elimination",
        buildFallbackExplanation p.1 p.2 (st.solution p.1 p.2)
          (getEliminationDetails (buildCurrentGrid st) p.1 p.2)⟩
    else none

/-- `findHint(state)`: try the techniques in fixed order, then fall back. -/
def findHint (st : GameState) : Option Hint :=
  let grid := buildCurrentGrid st
  let cand := calculateCandidates grid
  match findNakedSingle grid cand st with
  | some hint => some hint
  | none =>
    match findHiddenSingleInRow grid cand st with
    | some hint => some hint
    | none =>
      match findHiddenSingleInColumn grid cand st with
      | some hint => some hint
      | none =>
        match findHiddenSingleInBox grid cand st with
        | some hint => some hint
        | none => findFallbackHint st

/-! ### Properties of the hint engine -/

/-- Real game states satisfy this: `official[r][c]` is set exactly for the
non-zero puzzle cells (`game.js` builds it as `cell !== 0`), so an official
cell always shows a non-zero value. -/
def OfficialFilled (st : GameState) : Prop :=
  ∀ r c, r < 9 → c < 9 → st.official r c = true → st.puzzle r c ≠ 0

/-- Some board cell is neither official nor filled in by the user. -/
def HasEmptyCell (st : GameState) : Prop :=
  ∃ r c, r < 9 ∧ c < 9 ∧ st.official r c = false ∧ st.userEntries r c = 0

theorem buildCurrentGrid_ne_zero {st : GameState} (hof : OfficialFilled st)
    (hne : ¬ HasEmptyCell st) :
    ∀ r c, r < 9 → c < 9 → buildCurrentGrid st r c ≠ 0 := by
  intro r c hr hc
  unfold buildCurrentGrid
  by_cases ho : st.official r c = true
  · rw [if_pos ho]
    exact hof r c hr hc ho
  · rw [if_neg ho]
    by_cases hu : st.userEntries r c ≠ 0
    · rw [if_pos hu]
      exact hu
    · exfalso
      exact hne ⟨r, c, hr, hc, Bool.eq_false_iff.2 (by simpa using ho), by omega⟩

theorem calculateCandidates_nil {grid : Grid} {r c : Nat} (h : grid r c ≠ 0) :
    calculateCandidates grid r c = [] := by
  unfold calculateCandidates
  rw [if_pos h]

theorem findNakedSingle_eq_none {grid : Grid} {cand : Nat → Nat → List Nat}
    {st : GameState} (h : ∀ r c, r < 9 → c < 9 → grid r c ≠ 0) :
    findNakedSingle grid cand st = none := by
  unfold findNakedSingle
  rw [List.findSome?_eq_none_iff]
  intro p hp
  have hm := mem_allPositions.1 hp
  rw [if_neg]
  simp only [Bool.and_eq_true, beq_iff_eq, not_and]
  intro h0
  exact absurd h0 (h p.1 p.2 hm.1 hm.2)

theorem findHiddenSingleInRow_eq_none {grid : Grid} {cand : Nat → Nat → List Nat}
    {st : GameState} (h : ∀ r c, r < 9 → c < 9 → cand r c = []) :
    findHiddenSingleInRow grid cand st = none := by
  unfold findHiddenSingleInRow
  rw [List.findSome?_eq_none_iff]
  intro q hq
  simp only [List.mem_flatMap, List.mem_map, List.mem_range] at hq
  obtain ⟨row, hrow, num, _, hqe⟩ := hq
  subst hqe
  by_cases hin : ((List.range 9).any fun c => grid row c == num) = true
  · rw [if_pos hin]
  · rw [if_neg hin]
    have hfilter : ((List.range 9).filter fun col => (cand row col).contains num) = [] := by
      rw [List.filter_eq_nil_iff]
      intro col hcol
      rw [h row col hrow (List.mem_range.1 hcol)]
      simp
    rw [hfilter]

theorem findHiddenSingleInColumn_eq_none {grid : Grid} {cand : Nat → Nat → List Nat}
    {st : GameState} (h : ∀ r c, r < 9 → c < 9 → cand r c = []) :
    findHiddenSingleInColumn grid cand st = none := by
  unfold findHiddenSingleInColumn
  rw [List.findSome?_eq_none_iff]
  intro q hq
  simp only [List.mem_flatMap, List.mem_map, List.mem_range] at hq
  obtain ⟨col, hcol, num, _, hqe⟩ := hq
  subst hqe
  by_cases hin : ((List.range 9).any fun r => grid r col == num) = true
  · rw [if_pos hin]
  · rw [if_neg hin]
    have hfilter : ((List.range 9).filter fun row => (cand row col).contains num) = [] := by
      rw [List.filter_eq_nil_iff]
      intro row hrow
      rw [h row col (List.mem_range.1 hrow) hcol]
      simp
    rw [hfilter]

theorem findHiddenSingleInBox_eq_none {grid : Grid} {cand : Nat → Nat → List Nat}
    {st : GameState} (h : ∀ r c, r < 9 → c < 9 → cand r c = []) :
    findHiddenSingleInBox grid cand st = none := by
  unfold findHiddenSingleInBox
  rw [List.findSome?_eq_none_iff]
  intro q hq
  simp only [List.mem_flatMap, List.mem_map, List.mem_range] at hq
  obtain ⟨br, hbr, bc, hbc, num, _, hqe⟩ := hq
  subst hqe
  by_cases hin : ((boxCells (br * 3) (bc * 3)).any fun p => grid p.1 p.2 == num) = true
  · rw [if_pos hin]
  · rw [if_neg hin]
    have hfilter : ((boxCells (br * 3) (bc * 3)).filter fun p =>
        (cand p.1 p.2).contains num) = [] := by
      rw [List.filter_eq_nil_iff]
      intro p hp
      have hm := mem_boxCells.1 hp
      rw [h p.1 p.2 (by omega) (by omega)]
      simp
    rw [hfilter]

theorem findFallbackHint_eq_none_iff {st : GameState} :
    findFallbackHint st = none ↔ ¬ HasEmptyCell st := by
  unfold findFallbackHint
  rw [List.findSome?_eq_none_iff]
  constructor
  · intro h
    rintro ⟨r, c, hr, hc, ho, hu⟩
    have := h (r, c) (mem_allPositions.2 ⟨hr, hc⟩)
    rw [if_pos (by simp [ho, hu])] at this
    exact Option.noConfusion this
  · intro h p hp
    have hm := mem_allPositions.1 hp
    rw [if_neg]
    simp only [Bool.and_eq_true, Bool.not_eq_true', beq_iff_eq, not_and]
    intro ho hu
    exact h ⟨p.1, p.2, hm.1, hm.2, ho, hu⟩

/-- The technique chain of `findHint`, with the let bindings expanded. -/
theorem findHint_eq (st : GameState) :
    findHint st =
      match findNakedSingle (buildCurrentGrid st)
          (calculateCandidates (buildCurrentGrid st)) st with
      | some hint => some hint
      | none =>
        match findHiddenSingleInRow (buildCurrentGrid st)
            (calculateCandidates (buildCurrentGrid st)) st with
        | some hint => some hint
        | none =>
          match findHiddenSingleInColumn (buildCurrentGrid st)
              (calculateCandidates (buildCurrentGrid st)) st with
          | some hint => some hint
          | none =>
            match findHiddenSingleInBox (buildCurrentGrid st)
                (calculateCandidates (buildCurrentGrid st)) st with
            | some hint => some hint
            | none => findFallbackHint st := rfl

/-- On a board with no empty cell (and official cells showing non-zero
values), the hint engine returns no hint. -/
theorem findHint_none_of_noEmpty {st : GameState} (hof : OfficialFilled st)
    (hne : ¬ HasEmptyCell st) : findHint st = none := by
  have hgrid := buildCurrentGrid_ne_zero hof hne
  have hcand : ∀ r c, r < 9 → c < 9 →
      calculateCandidates (buildCurrentGrid st) r c = [] :=
    fun r c hr hc => calculateCandidates_nil (hgrid r c hr hc)
  rw [findHint_eq]
  rw [findNakedSingle_eq_none hgrid, findHiddenSingleInRow_eq_none hcand,
    findHiddenSingleInColumn_eq_none hcand, findHiddenSingleInBox_eq_none hcand]
  exact findFallbackHint_eq_none_iff.2 hne

/-- Whenever an empty cell exists, the hint engine returns a hint: if no
technique fires, the fallback does. -/
theorem findHint_ne_none_of_empty {st : GameState} (he : HasEmptyCell st) :
    findHint st ≠ none := by
  intro h
  rw [findHint_eq] at h
  rcases h1 : findNakedSingle (buildCurrentGrid st)
      (calculateCandidates (buildCurrentGrid st)) st with _ | hint
  case some => rw [h1] at h; exact Option.noConfusion h
  rw [h1] at h
  rcases h2 : findHiddenSingleInRow (buildCurrentGrid st)
      (calculateCandidates (buildCurrentGrid st)) st with _ | hint
  case some => rw [h2] at h; exact Option.noConfusion h
  rw [h2] at h
  rcases h3 : findHiddenSingleInColumn (buildCurrentGrid st)
      (calculateCandidates (buildCurrentGrid st)) st with _ | hint
  case some => rw [h3] at h; exact Option.noConfusion h
  rw [h3] at h
  rcases h4 : findHiddenSingleInBox (buildCurrentGrid st)
      (calculateCandidates (buildCurrentGrid st)) st with _ | hint
  case some => rw [h4] at h; exact Option.noConfusion h
  rw [h4] at h
  exact (findFallbackHint_eq_none_iff.1 h) he

theorem findNakedSingle_sol {grid : Grid} {cand : Nat → Nat → List Nat}
    {st : GameState} {h : Hint} (hf : findNakedSingle grid cand st = some h) :
    st.solution h.row h.col = h.number := by
  obtain ⟨p, hp, hfp⟩ := List.exists_of_findSome?_eq_some hf
  by_cases h1 : (grid p.1 p.2 == 0 && (cand p.1 p.2).length == 1) = true
  · rw [if_pos h1] at hfp
    by_cases h2 : (st.solution p.1 p.2 != (cand p.1 p.2).headD 0) = true
    · rw [if_pos h2] at hfp
      exact Option.noConfusion hfp
    · rw [if_neg h2] at hfp
      injection hfp with hh
      subst hh
      simp only [bne_iff_ne, ne_eq, Decidable.not_not] at h2
      exact h2
  · rw [if_neg h1] at hfp
    exact Option.noConfusion hfp

theorem findHiddenSingleInRow_sol {grid : Grid} {cand : Nat → Nat → List Nat}
    {st : GameState} {h : Hint}
    (hf : findHiddenSingleInRow grid cand st = some h) :
    st.solution h.row h.col = h.number := by
  obtain ⟨q, hq, hfq⟩ := List.exists_of_findSome?_eq_some hf
  by_cases hin : ((List.range 9).any fun c => grid q.1 c == q.2) = true
  · rw [if_pos hin] at hfq
    exact Option.noConfusion hfq
  · rw [if_neg hin] at hfq
    rcases hfilter : (List.range 9).filter (fun col => (cand q.1 col).contains q.2)
        with _ | ⟨col, rest⟩
    · rw [hfilter] at hfq
      exact Option.noConfusion hfq
    · rcases rest with _ | ⟨col2, rest2⟩
      · rw [hfilter] at hfq
        have hfq2 : (if ((cand q.1 col).length == 1) = true then (none : Option Hint)
            else if (st.solution q.1 col != q.2) = true then none
            else some ⟨q.1, col, q.2, "Hidden Single (Row)",
              buildHiddenSingleRowExplanation q.1 col q.2 cand⟩) = some h := hfq
        by_cases hn1 : ((cand q.1 col).length == 1) = true
        · rw [if_pos hn1] at hfq2
          exact Option.noConfusion hfq2
        · rw [if_neg hn1] at hfq2
          by_cases hs : (st.solution q.1 col != q.2) = true
          · rw [if_pos hs] at hfq2
            exact Option.noConfusion hfq2
          · rw [if_neg hs] at hfq2
            injection hfq2 with hh
            subst hh
            simp only [bne_iff_ne, ne_eq, Decidable.not_not] at hs
            exact hs
      · rw [hfilter] at hfq
        exact Option.noConfusion hfq

theorem findHiddenSingleInColumn_sol {grid : Grid} {cand : Nat → Nat → List Nat}
    {st : GameState} {h : Hint}
    (hf : findHiddenSingleInColumn grid cand st = some h) :
    st.solution h.row h.col = h.number := by
  obtain ⟨q, hq, hfq⟩ := List.exists_of_findSome?_eq_some hf
  by_cases hin : ((List.range 9).any fun r => grid r q.1 == q.2) = true
  · rw [if_pos hin] at hfq
    exact Option.noConfusion hfq
  · rw [if_neg hin] at hfq
    rcases hfilter : (List.range 9).filter (fun row => (cand row q.1).contains q.2)
        with _ | ⟨row, rest⟩
    · rw [hfilter] at hfq
      exact Option.noConfusion hfq
    · rcases rest with _ | ⟨row2, rest2⟩
      · rw [hfilter] at hfq
        have hfq2 : (if ((cand row q.1).length == 1) = true then (none : Option Hint)
            else if (st.solution row q.1 != q.2) = true then none
            else some ⟨row, q.1, q.2, "Hidden Single (Column)",
              buildHiddenSingleColExplanation row q.1 q.2 cand⟩) = some h := hfq
        by_cases hn1 : ((cand row q.1).length == 1) = true
        · rw [if_pos hn1] at hfq2
          exact Option.noConfusion hfq2
        · rw [if_neg hn1] at hfq2
          by_cases hs : (st.solution row q.1 != q.2) = true
          · rw [if_pos hs] at hfq2
            exact Option.noConfusion hfq2
          · rw [if_neg hs] at hfq2
            injection hfq2 with hh
            subst hh
            simp only [bne_iff_ne, ne_eq, Decidable.not_not] at hs
            exact hs
      · rw [hfilter] at hfq
        exact Option.noConfusion hfq

theorem findHiddenSingleInBox_sol {grid : Grid} {cand : Nat → Nat → List Nat}
    {st : GameState} {h : Hint}
    (hf : findHiddenSingleInBox grid cand st = some h) :
    st.solution h.row h.col = h.number := by
  obtain ⟨q, hq, hfq⟩ := List.exists_of_findSome?_eq_some hf
  by_cases hin : ((boxCells (q.1 * 3) (q.2.1 * 3)).any fun p =>
      grid p.1 p.2 == q.2.2) = true
  · rw [if_pos hin] at hfq
    exact Option.noConfusion hfq
  · rw [if_neg hin] at hfq
    rcases hfilter : (boxCells (q.1 * 3) (q.2.1 * 3)).filter
        (fun p => (cand p.1 p.2).contains q.2.2) with _ | ⟨p, rest⟩
    · rw [hfilter] at hfq
      exact Option.noConfusion hfq
    · rcases rest with _ | ⟨p2, rest2⟩
      · rw [hfilter] at hfq
        have hfq2 : (if ((cand p.1 p.2).length == 1) = true then (none : Option Hint)
            else if (st.solution p.1 p.2 != q.2.2) = true then none
            else some ⟨p.1, p.2, q.2.2, "Hidden Single (Box)",
              buildHiddenSingleBoxExplanation p.1 p.2 q.2.2 cand
                (q.1 * 3) (q.2.1 * 3)⟩) = some h := hfq
        by_cases hn1 : ((cand p.1 p.2).length == 1) = true
        · rw [if_pos hn1] at hfq2
          exact Option.noConfusion hfq2
        · rw [if_neg hn1] at hfq2
          by_cases hs : (st.solution p.1 p.2 != q.2.2) = true
          · rw [if_pos hs] at hfq2
            exact Option.noConfusion hfq2
          · rw [if_neg hs] at hfq2
            injection hfq2 with hh
            subst hh
            simp only [bne_iff_ne, ne_eq, Decidable.not_not] at hs
            exact hs
      · rw [hfilter] at hfq
        exact Option.noConfusion hfq

theorem findFallbackHint_sol {st : GameState} {h : Hint}
    (hf : findFallbackHint st = some h) :
    st.solution h.row h.col = h.number := by
  obtain ⟨p, hp, hfp⟩ := List.exists_of_findSome?_eq_some hf
  by_cases h1 : (!(st.official p.1 p.2) && st.userEntries p.1 p.2 == 0) = true
  · rw [if_pos h1] at hfp
    injection hfp with hh
    subst hh
    rfl
  · rw [if_neg h1] at hfp
    exact Option.noConfusion hfp

/-- Every hint the engine returns carries the solution's value at the
reported cell. -/
theorem findHint_sol (st : GameState) :
    ((findHint st).all fun h => st.solution h.row h.col == h.number) = true := by
  rw [findHint_eq]
  rcases h1 : findNakedSingle (buildCurrentGrid st)
      (calculateCandidates (buildCurrentGrid st)) st with _ | hint
  swap
  · simpa using findNakedSingle_sol h1
  rcases h2 : findHiddenSingleInRow (buildCurrentGrid st)
      (calculateCandidates (buildCurrentGrid st)) st with _ | hint
  swap
  · simpa using findHiddenSingleInRow_sol h2
  rcases h3 : findHiddenSingleInColumn (buildCurrentGrid st)
      (calculateCandidates (buildCurrentGrid st)) st with _ | hint
  swap
  · simpa using findHiddenSingleInColumn_sol h3
  rcases h4 : findHiddenSingleInBox (buildCurrentGrid st)
      (calculateCandidates (buildCurrentGrid st)) st with _ | hint
  swap
  · simpa using findHiddenSingleInBox_sol h4
  rcases h5 : findFallbackHint st with _ | hint
  · rfl
  · simpa using findFallbackHint_sol h5

/-! ### The within-box removal order (claim C5)

The source comments say `// Shuffle positions within each box` above
`boxes.forEach(box => this.shuffleArray(box))`, but `shuffleArray` returns a
shuffled *copy* and the copies are discarded, so the queue built afterwards
visits the cells of each box in the fixed row-major push order, for every
random stream.  The theorems below make that deterministic order precise. -/

theorem boxPositions_length : ∀ b : Fin 9, (boxPositions b.val).length = 9 := by
  decide

theorem boxIndex_of_mem_boxPositions {b : Nat} {x : Nat × Nat}
    (hx : x ∈ boxPositions b) : boxIndex x.1 x.2 = b := by
  have := (List.mem_filter.1 hx).2
  simpa using this

theorem boxPositions_get?_lt {b i : Nat} (hb : b < 9) (hi : i < 9) :
    ∃ x, (boxPositions b).get? i = some x ∧ boxIndex x.1 x.2 = b := by
  cases hq : (boxPositions b).get? i with
  | none =>
    rw [List.get?_eq_none] at hq
    have hlen : (boxPositions b).length = 9 := boxPositions_length ⟨b, hb⟩
    omega
  | some x =>
    exact ⟨x, rfl, boxIndex_of_mem_boxPositions (List.get?_mem hq)⟩

theorem queue_round_filter {b : Nat} {i : Nat} (hi : i < 9) :
    ∀ l : List Nat, (∀ b2 ∈ l, b2 < 9) → l.Nodup → b ∈ l →
      ((l.filterMap fun b2 => (boxPositions b2).get? i).filter
        fun p => boxIndex p.1 p.2 == b) = ((boxPositions b).get? i).toList := by
  intro l
  induction l with
  | nil => intro _ _ hbl; cases hbl
  | cons b2 rest ih =>
    intro hmem hnd hbl
    rw [List.nodup_cons] at hnd
    obtain ⟨x, hx, hxbox⟩ :=
      boxPositions_get?_lt (hmem b2 (List.mem_cons_self b2 rest)) hi
    rw [List.filterMap_cons, hx]
    rcases List.mem_cons.1 hbl with hbe | hbrest
    · subst hbe
      rw [List.filter_cons, if_pos (by simp [hxbox])]
      have htail : ((rest.filterMap fun b3 => (boxPositions b3).get? i).filter
          fun p => boxIndex p.1 p.2 == b) = [] := by
        rw [List.filter_eq_nil_iff]
        intro y hy
        rw [List.mem_filterMap] at hy
        obtain ⟨b3, hb3mem, hb3get⟩ := hy
        have hyb3 : boxIndex y.1 y.2 = b3 :=
          boxIndex_of_mem_boxPositions (List.get?_mem hb3get)
        have hne : b3 ≠ b := fun he => hnd.1 (he ▸ hb3mem)
        simp [hyb3, hne]
      rw [htail, hx]
      rfl
    · have hne : b2 ≠ b := fun he => hnd.1 (he ▸ hbrest)
      rw [List.filter_cons, if_neg (by simp [hxbox, hne])]
      exact ih (fun b3 h3 => hmem b3 (List.mem_cons_of_mem b2 h3)) hnd.2 hbrest

theorem flatMap_get?_toList {α : Type} :
    ∀ l : List α, ((List.range l.length).flatMap fun i => (l.get? i).toList) = l := by
  intro l
  induction l with
  | nil => rfl
  | cons x t ih =>
    rw [List.length_cons, List.range_succ_eq_map, List.flatMap_cons,
      List.flatMap_map]
    simp only [Nat.succ_eq_add_one, List.get?_cons_succ]
    rw [ih]
    rfl

/-- For any box order that is a permutation of `0…8` — in particular the
shuffled one — the removal queue visits the cells of box `b` exactly in the
row-major order `boxPositions b`, i.e. in the order they were pushed, not in
a shuffled order. -/
theorem buildQueue_box_filter {bo : List Nat} (hperm : bo.Perm (List.range 9))
    {b : Nat} (hb : b < 9) :
    ((buildQueue boxPositions bo).filter fun p => boxIndex p.1 p.2 == b) =
      boxPositions b := by
  unfold buildQueue
  rw [List.filter_flatMap]
  have hmem : ∀ b2 ∈ bo, b2 < 9 := fun b2 h2 => by
    have := hperm.mem_iff.1 h2
    simpa using this
  have hnd : bo.Nodup := hperm.nodup_iff.2 (List.nodup_range 9)
  have hbmem : b ∈ bo := hperm.mem_iff.2 (by simpa using hb)
  rw [List.flatMap_congr fun i hi =>
    queue_round_filter (by simpa using hi) bo hmem hnd hbmem]
  rw [show (9 : Nat) = (boxPositions b).length from
    (boxPositions_length ⟨b, hb⟩).symm]
  exact flatMap_get?_toList (boxPositions b)

/-! ### Concrete inputs and a heap-level view of `shuffleArray` -/

/-- `solve` on a complete grid: `findEmptyCell` is `null`, so the grid itself
is returned, with no validity check. -/
theorem solve_complete {g : Grid} (h : CompleteG g) : solve g = some g := by
  rw [solve_eq_head]
  have h82 : completionsFuel 82 g = [g] := by
    have := completionsFuel_complete 81 h
    norm_num at this
    exact this
  rw [h82]
  rfl

/-- The all-ones grid: complete (no empty cell) but not a valid Sudoku. -/
def allOnesGrid : Grid := fun _ _ => 1

theorem allOnesGrid_complete : CompleteG allOnesGrid :=
  fun _ _ _ _ => Nat.one_ne_zero

/-- No valid completed grid agrees with the all-ones grid: its first two
cells already clash in their shared row. -/
theorem allOnes_no_completion : ¬∃ S, IsCompletion allOnesGrid S := by
  rintro ⟨S, hcomp, hval, hext, hoff⟩
  have h00 : S 0 0 = 1 := hext 0 0 (by omega) (by omega) Nat.one_ne_zero
  have h01 : S 0 1 = 1 := hext 0 1 (by omega) (by omega) Nat.one_ne_zero
  have hsep := hval.2 (0, 0) (0, 1) (by omega) (by omega) (by omega) (by omega)
    (by decide) (Or.inl rfl)
  rcases hsep with hx | hx | hx
  · have hx2 : S 0 0 = 0 := hx
    rw [h00] at hx2
    omega
  · have hx2 : S 0 1 = 0 := hx
    rw [h01] at hx2
    omega
  · have hx2 : S 0 0 ≠ S 0 1 := hx
    rw [h00, h01] at hx2
    exact hx2 rfl

theorem gridA_ne_gridB : gridOfList solGridA ≠ gridOfList solGridB := by
  intro he
  have h5 : gridOfList solGridA 0 0 = 5 := by decide
  have h1 : gridOfList solGridB 0 0 = 1 := by decide
  rw [he, h1] at h5
  omega

/-- The empty grid admits at least two completions, so the counter caps
at 2 there. -/
theorem countSolutions_emptyGrid : countSolutions emptyGrid 0 = 2 :=
  (countSolutions_eq_two_iff validG_emptyGrid).2
    ⟨gridOfList solGridA, gridOfList solGridB,
      isCompletion_emptyGrid_of_valid solGridA_valid (by decide) (by decide),
      isCompletion_emptyGrid_of_valid solGridB_valid (by decide) (by decide),
      gridA_ne_gridB⟩

/-- Heap-level view of one `this.shuffleArray(arr)` call, making the
"does not modify its argument" claim expressible: the heap is a list of
array values, the argument is an index into it, and the call appends the
shuffled copy (`const shuffled = [...array]` plus the swap loop) as a new
object, returning its index and the advanced random stream. -/
def shuffleArrayCall (store : List (List Nat)) (arg : Nat) (σ : RNG) :
    List (List Nat) × Nat × RNG :=
  (store ++ [(shuffleArray (store.getD arg []) σ).1], store.length,
    (shuffleArray (store.getD arg []) σ).2)

theorem getD_append_length {α : Type} (x d : α) :
    ∀ l : List α, (l ++ [x]).getD l.length d = x := by
  intro l
  induction l with
  | nil => rfl
  | cons y t ih => simp

/-- The random-number stream that always returns 0. -/
def rngZero : RNG := fun _ => 0

/-- A game state whose `official` mask is `true` everywhere (as `game.js`
sets it only on non-zero cells of a fresh puzzle, this mask is wrong) while
cell `(0, 0)` of the puzzle is 0: no cell is empty in the hint engine's
sense, yet the current grid has a hole at `(0, 0)`. -/
def stateCEx : GameState :=
  ⟨setCell (gridOfList solGridA) 0 0 0, emptyGrid, fun _ _ => true,
    gridOfList solGridA⟩

/-- A game state with no official cells at all, trivially satisfying the
invariant that official cells hold non-zero puzzle values. -/
def stateW : GameState :=
  ⟨gridOfList solGridA, emptyGrid, fun _ _ => false, gridOfList solGridA⟩

/-! ## The claims -/

/-- C1: for difficulty `'hard'` and `'superhard'`, the puzzle returned by
`generatePuzzle` has exactly one valid completion, and the engine's own
counter `countSolutions` returns 1 on it, for every attempt bound and
random stream. -/
theorem claim_C1 (maxAttempts : Nat) (σ : RNG) :
    (countSolutions (generatePuzzle "hard" maxAttempts σ).1.1 0 = 1 ∧
      ∃! S, IsCompletion (generatePuzzle "hard" maxAttempts σ).1.1 S) ∧
    (countSolutions (generatePuzzle "superhard" maxAttempts σ).1.1 0 = 1 ∧
      ∃! S, IsCompletion (generatePuzzle "superhard" maxAttempts σ).1.1 S) := by
  have hh := @generatePuzzle_uniq "hard" (by decide) maxAttempts σ
  have hs := @generatePuzzle_uniq "superhard" (by decide) maxAttempts σ
  exact ⟨⟨hh, (countSolutions_eq_one_iff (generatePuzzle_validG _ _ _)).1 hh⟩,
    ⟨hs, (countSolutions_eq_one_iff (generatePuzzle_validG _ _ _)).1 hs⟩⟩

/-- C2: for every difficulty, attempt bound, random stream and cell, the
generated puzzle's cell is either 0 or equal to the corresponding cell of
the returned solution — clues are an exact subset of the solution. -/
theorem claim_C2 (difficulty : String) (maxAttempts : Nat) (σ : RNG) (r c : Nat) :
    (generatePuzzle difficulty maxAttempts σ).1.1 r c = 0 ∨
    (generatePuzzle difficulty maxAttempts σ).1.1 r c =
      (generatePuzzle difficulty maxAttempts σ).1.2 r c :=
  generatePuzzle_cells difficulty maxAttempts σ r c

/-- C3 is false as stated: on the complete but malformed all-ones grid,
`solve` returns the grid itself — `findEmptyCell` is `null` so no validity
check ever runs — even though the grid admits no valid completion and the
engine's own validator rejects it. -/
theorem claim_C3_counterexample :
    solve allOnesGrid = some allOnesGrid ∧
    isValidGrid allOnesGrid true = false ∧
    ¬∃ S, IsCompletion allOnesGrid S :=
  ⟨solve_complete allOnesGrid_complete, by decide, allOnes_no_completion⟩

/-- C3 (amended): for grids accepted by the engine's partial-grid validator
`isValidGrid(grid, false)`, `solve` returns `none` exactly when the grid has
no valid completion, and any grid it does return is a valid completion of
the input: complete, valid, and agreeing with every non-zero input cell. -/
theorem claim_C3 (g : Grid) (hg : isValidGrid g false = true) :
    (solve g = none ↔ ¬∃ S, IsCompletion g S) ∧
    ∀ s, solve g = some s → IsCompletion g s := by
  have hval := (isValidGrid_false_iff g).1 hg
  exact ⟨solve_eq_none_iff hval, fun s hs => solve_eq_some hval hs⟩

/-- The amended C3 applied to the empty grid, whose hypothesis holds by
computation. -/
theorem claim_C3_witness :
    isValidGrid emptyGrid false = true ∧
    ((solve emptyGrid = none ↔ ¬∃ S, IsCompletion emptyGrid S) ∧
      ∀ s, solve emptyGrid = some s → IsCompletion emptyGrid s) :=
  ⟨by decide, claim_C3 emptyGrid (by decide)⟩

/-- C4: `solve` on a complete valid grid (one accepted by
`isValidGrid(grid, true)`) returns exactly that grid: `findEmptyCell` finds
no empty cell, so the input is returned unchanged. -/
theorem claim_C4 (g : Grid) (hg : isValidGrid g true = true) :
    solve g = some g :=
  solve_complete ((isValidGrid_true_iff g).1 hg).1

/-- The C4 idempotence theorem applied to a concrete complete valid grid. -/
theorem claim_C4_witness :
    isValidGrid (gridOfList solGridA) true = true ∧
    solve (gridOfList solGridA) = some (gridOfList solGridA) :=
  ⟨solGridA_valid, claim_C4 (gridOfList solGridA) solGridA_valid⟩

/-- C5 is refuted by the code: `boxes.forEach(box => this.shuffleArray(box))`
shuffles discarded copies, so for every random stream the removal queue
visits the cells of each box `b` in exactly the fixed row-major collection
order `boxPositions b`, never a shuffled permutation of it; only the box
interleaving order (the shuffled `List.range 9`) is random. -/
theorem claim_C5 (σ : RNG) (b : Fin 9) :
    ((buildQueue boxPositions (shuffleArray (List.range 9) σ).1).filter
      fun p => boxIndex p.1 p.2 == b.val) = boxPositions b.val :=
  buildQueue_box_filter (shuffleArray_perm (List.range 9) σ) b.isLt

/-- C6 is false as stated: the all-ones grid has no valid completion, yet
`countSolutions` returns 1 on it — like `solve`, the counter never
validates pre-filled cells. -/
theorem claim_C6_counterexample :
    countSolutions allOnesGrid 0 = 1 ∧ ¬∃ S, IsCompletion allOnesGrid S :=
  ⟨countSolutions_complete allOnesGrid_complete, allOnes_no_completion⟩

/-- C6 (amended): `countSolutions` with the default counter always
terminates with a value in {0, 1, 2}; on grids accepted by the engine's
partial-grid validator that value is 0 / 1 / 2 exactly when the grid has
no / exactly one / at least two valid completions; and on the all-zeros
empty grid it returns 2. -/
theorem claim_C6 :
    (∀ g : Grid,
      (countSolutions g 0 = 0 ∨ countSolutions g 0 = 1 ∨ countSolutions g 0 = 2) ∧
      (isValidGrid g false = true →
        ((countSolutions g 0 = 0 ↔ ¬∃ S, IsCompletion g S) ∧
         (countSolutions g 0 = 1 ↔ ∃! S, IsCompletion g S) ∧
         (countSolutions g 0 = 2 ↔
           ∃ S₁ S₂, IsCompletion g S₁ ∧ IsCompletion g S₂ ∧ S₁ ≠ S₂)))) ∧
    countSolutions emptyGrid 0 = 2 := by
  refine ⟨fun g => ⟨countSolutions_range g, fun hg => ?_⟩, countSolutions_emptyGrid⟩
  have hval := (isValidGrid_false_iff g).1 hg
  exact ⟨countSolutions_eq_zero_iff hval, countSolutions_eq_one_iff hval,
    countSolutions_eq_two_iff hval⟩

/-- The amended C6's conditional part applied to the empty grid, whose
hypothesis holds by computation. -/
theorem claim_C6_witness :
    isValidGrid emptyGrid false = true ∧
    (countSolutions emptyGrid 0 = 2 ↔
      ∃ S₁ S₂, IsCompletion emptyGrid S₁ ∧ IsCompletion emptyGrid S₂ ∧ S₁ ≠ S₂) :=
  ⟨by decide, ((claim_C6.1 emptyGrid).2 (by decide)).2.2⟩

/-- C7: whatever grid and starting counter `countSolutionsAux` — the
embedding of `countSolutions`, returning the final counter together with
the final grid — is called on, the returned grid is cell-for-cell the input
grid: every speculative placement is undone on every return path, including
the `count > 1` early exits (covered here since `cnt` is arbitrary, in
particular already ≥ 2). -/
theorem claim_C7 (g : Grid) (cnt : Nat) : (countSolutionsAux 82 g cnt).2 = g :=
  countSolutionsAux_grid

/-- C8 is false as stated: in `stateCEx` every cell is official, so no cell
is empty in the claim's sense, yet `findHint` returns a hint — the naked
single at the official cell whose puzzle value is 0.  (`game.js` only marks
non-zero cells official, which is the amendment's hypothesis.) -/
theorem claim_C8_counterexample :
    ¬ HasEmptyCell stateCEx ∧ (findHint stateCEx).isSome = true := by
  constructor
  · rintro ⟨r, c, _, _, hoff, _⟩
    exact Bool.noConfusion hoff
  · rfl

/-- C8 (amended): under the invariant maintained by `game.js` — every
official cell holds a non-zero puzzle value — `findHint` returns `none`
exactly when no cell is both non-official and without a user entry. -/
theorem claim_C8 (st : GameState) (hof : OfficialFilled st) :
    findHint st = none ↔ ¬ HasEmptyCell st := by
  constructor
  · intro hnone hemp
    exact findHint_ne_none_of_empty hemp hnone
  · exact findHint_none_of_noEmpty hof

/-- The amended C8 applied to a concrete state with no official cells,
which satisfies the invariant vacuously. -/
theorem claim_C8_witness :
    OfficialFilled stateW ∧ (findHint stateW = none ↔ ¬ HasEmptyCell stateW) :=
  ⟨fun _ _ _ _ h => Bool.noConfusion h,
    claim_C8 stateW fun _ _ _ _ h => Bool.noConfusion h⟩

/-- C9: every hint `findHint` returns — from any of its five stages: naked
single, hidden single in row / column / box, or the fallback — reports the
number that the state's solution grid holds at the hint's row and column. -/
theorem claim_C9 (st : GameState) :
    ((findHint st).all fun h => st.solution h.row h.col == h.number) = true :=
  findHint_sol st

/-- C10: `shuffleArray` returns a permutation of its argument, and — viewed
at the heap level through `shuffleArrayCall` — leaves every pre-existing
array object, in particular the argument itself, unmodified, storing the
shuffled copy as a fresh object; callers that discard the returned copy
therefore have no effect on their argument. -/
theorem claim_C10 (l : List Nat) (σ : RNG) :
    ((shuffleArray l σ).1).Perm l ∧
    ∀ (store : List (List Nat)) (arg i : Nat), i < store.length →
      (shuffleArrayCall store arg σ).1.getD i [] = store.getD i [] ∧
      (shuffleArrayCall store arg σ).1.getD (shuffleArrayCall store arg σ).2.1 []
        = (shuffleArray (store.getD arg []) σ).1 := by
  refine ⟨shuffleArray_perm l σ, fun store arg i hi => ⟨?_, ?_⟩⟩
  · exact List.getD_append store _ [] i hi
  · exact getD_append_length _ [] store

/-- The C10 frame property applied to a concrete one-array heap. -/
theorem claim_C10_witness :
    ((shuffleArray [3, 1, 2] rngZero).1).Perm [3, 1, 2] ∧
    ((shuffleArrayCall [[3, 1, 2]] 0 rngZero).1.getD 0 [] =
        [[3, 1, 2]].getD 0 [] ∧
      (shuffleArrayCall [[3, 1, 2]] 0 rngZero).1.getD
          (shuffleArrayCall [[3, 1, 2]] 0 rngZero).2.1 []
        = (shuffleArray ([[3, 1, 2]].getD 0 []) rngZero).1) :=
  ⟨(claim_C10 [3, 1, 2] rngZero).1,
    (claim_C10 [3, 1, 2] rngZero).2 [[3, 1, 2]] 0 0 (by decide)⟩
